import Mathlib

/-!
Verification development for the recipe-resolution core of the
`infinisearch` repository (`src/lib/craftingTree.js`).

The JavaScript source is shallowly embedded as executable Lean
definitions:

* JS `Map` objects (which iterate in insertion order) are modelled as
  insertion-ordered association lists (`omap*` helpers below); `Map.set`
  on an existing key replaces the value in place, otherwise appends.
* The module-level mutable `idCounter` is threaded explicitly through
  every function as a `Nat` state component.
* The branch-local mutable `visited` set (`visited.add` before the
  recursive child calls, `visited.delete` before every return, children
  receiving `new Set(visited)`) is modelled by passing each child call
  the extended functional list `elementId :: visited`; the `delete`
  calls have no further observable effect because every callee owns a
  private copy.
* The recursion of `buildTree` on `depth`/`maxDepth` is modelled by the
  gas value `maxDepth + 1 - depth`: the JS guard `depth > maxDepth`
  holds exactly when the gas is zero, and each child call at `depth + 1`
  has gas one less.
* The single JS `edgeMap`, which stores ingredient arrays under pair
  ids and (never read again) result ids under `"result_" ++ pairId`
  keys, is modelled as two tables (`edgeMap` and `edgeResultMap`).
* JS object references (needed for the copy-isolation property of the
  tree cache) are modelled by an explicit append-only heap of trees in
  `AppState`; `structuredClone` allocates a fresh slot, and mutating a
  returned tree is replacing its slot.
* The external fetch of the graph JSON is modelled by an oracle list of
  `FetchResult`s: `loadDAGData` consumes the head exactly when the JS
  code would perform a network fetch.
-/

/-! ## Insertion-ordered association lists (JS `Map`) -/

def omapHas {α : Type} : List (String × α) → String → Bool
  | [], _ => false
  | p :: ps, k => if p.1 = k then true else omapHas ps k

def omapGet {α : Type} : List (String × α) → String → Option α
  | [], _ => none
  | p :: ps, k => if p.1 = k then some p.2 else omapGet ps k

/-- JS `Map.set`: replace in place when present, else append. -/
def omapSet {α : Type} : List (String × α) → String → α → List (String × α)
  | [], k, v => [(k, v)]
  | p :: ps, k, v => if p.1 = k then (k, v) :: ps else p :: omapSet ps k v

/-- JS `Map.delete`. -/
def omapDelete {α : Type} (m : List (String × α)) (k : String) : List (String × α) :=
  m.filter (fun p => !(p.1 = k : Bool))

/-- In-place mutation of the value stored under a present key
(the JS `map.get(k).push(x)` pattern). -/
def omapUpdate {α : Type} (m : List (String × α)) (k : String) (f : α → α) :
    List (String × α) :=
  m.map (fun p => if p.1 = k then (p.1, f p.2) else p)

/-! ## `generateUniqueId` -/

/-- One step of JS `replace(/\s+/g, '-')`: each maximal whitespace run
becomes a single `'-'`; `prevWS` records whether the previous character
was part of a whitespace run. -/
def collapseWS (prevWS : Bool) : List Char → List Char
  | [] => []
  | c :: rest =>
    if c.isWhitespace then
      if prevWS then collapseWS true rest
      else '-' :: collapseWS true rest
    else c :: collapseWS false rest

/-- JS `String.prototype.toLowerCase`, character by character (the
names in play are ASCII). -/
def toLowerCase (s : String) : String :=
  String.mk (s.data.map Char.toLower)

/-- `baseName.toLowerCase().replace(/\s+/g, '-')`. -/
def slugify (s : String) : String :=
  String.mk (collapseWS false (toLowerCase s).data)

/-- JS `generateUniqueId`; the module-level `idCounter` is threaded as
an explicit argument and result. -/
def generateUniqueId (baseName : String) (idCounter : Nat) : String × Nat :=
  let c := idCounter + 1
  (slugify baseName ++ "-" ++ toString c, c)

/-! ## Input graph data -/

structure NodeProps where
  name : String
  depth : Option Int
  deriving Repr, DecidableEq

structure DagNode where
  id : String
  labels : List String
  properties : NodeProps
  deriving Repr, DecidableEq

structure Relationship where
  type : String
  start : String
  «end» : String
  deriving Repr, DecidableEq

structure DagData where
  nodes : List DagNode
  relationships : List Relationship
  deriving Repr, DecidableEq

/-! ## The LRU cache -/

structure LRUCache (α : Type) where
  cache : List (String × α)
  maxSize : Nat
  keys : List String
  deriving Repr

/-- `new LRUCache(maxSize)`. -/
def LRUCache.mkEmpty (α : Type) (maxSize : Nat) : LRUCache α :=
  ⟨[], maxSize, []⟩

def LRUCache.has {α : Type} (c : LRUCache α) (k : String) : Bool :=
  omapHas c.cache k

/-- JS `get`: on a hit, move the key to the most-recently-used end of
`keys` and return the stored value; the updated cache is returned as
the second component (the JS method mutates `this.keys`). -/
def LRUCache.get {α : Type} (c : LRUCache α) (k : String) : Option α × LRUCache α :=
  if c.has k then
    (omapGet c.cache k,
      { c with keys := c.keys.filter (fun x => !(x = k : Bool)) ++ [k] })
  else (none, c)

/-- JS `set`: refresh the key position when present; otherwise, at
capacity, shift off the least-recently-used key (a `shift` on an empty
array yields `undefined`, and `cache.delete(undefined)` is a no-op);
finally push the key and store the value. -/
def LRUCache.set {α : Type} (c : LRUCache α) (k : String) (v : α) : LRUCache α :=
  if c.has k then
    { c with
      keys := c.keys.filter (fun x => !(x = k : Bool)) ++ [k],
      cache := omapSet c.cache k v }
  else if c.keys.length ≥ c.maxSize then
    match c.keys with
    | [] => { c with keys := [k], cache := omapSet c.cache k v }
    | lruKey :: rest =>
      { c with
        keys := rest ++ [k],
        cache := omapSet (omapDelete c.cache lruKey) k v }
  else { c with keys := c.keys ++ [k], cache := omapSet c.cache k v }

def LRUCache.clear {α : Type} (c : LRUCache α) : LRUCache α :=
  { c with cache := [], keys := [] }

/-! ## Crafting trees -/

/-- A rendered crafting-tree node.  `originalId` is `none` for the two
fallback sentinels of `buildCraftingTree`, which do not set the field;
`ingredients = none` models an absent `ingredients` field (as on the
basic leaves built by `buildTree`), while `some []` models the explicit
empty array carried by the sentinels. `isDepthLimited = false` models
an absent (hence falsy) `isDepthLimited` field. -/
inductive CraftTree : Type where
  | node (id : String) (name : String) (isBasic : Bool) (originalId : Option String)
      (ingredients : Option (List CraftTree)) (isDepthLimited : Bool) : CraftTree
  deriving Repr

def CraftTree.id : CraftTree → String
  | .node i _ _ _ _ _ => i

def CraftTree.name : CraftTree → String
  | .node _ n _ _ _ _ => n

def CraftTree.isBasic : CraftTree → Bool
  | .node _ _ b _ _ _ => b

def CraftTree.originalId : CraftTree → Option String
  | .node _ _ _ o _ _ => o

def CraftTree.ingredients : CraftTree → Option (List CraftTree)
  | .node _ _ _ _ g _ => g

def CraftTree.isDepthLimited : CraftTree → Bool
  | .node _ _ _ _ _ d => d

/-! ## `processDAGData`: the module-level lookup tables -/

/-- The module-level maps `nodeMap`, `edgeMap`, `recipeResults` and
`recipeIngredients`.  The JS `edgeMap` additionally stores, under keys
`"result_" ++ pairId`, a reverse pair-to-result mapping that no code
ever reads; it is modelled as the separate table `edgeResultMap`. -/
structure DagState where
  nodeMap : List (String × DagNode)
  edgeMap : List (String × List String)
  edgeResultMap : List (String × String)
  recipeResults : List (String × List String)
  recipeIngredients : List (String × List (List String))
  deriving Repr

def emptyDagState : DagState := ⟨[], [], [], [], []⟩

/-- One `PART_OF` / `RESULTS_IN` relationship step of `processDAGData`. -/
def processRel (st : DagState) (rel : Relationship) : DagState :=
  if rel.type = "PART_OF" then
    let pairId := rel.«end»
    let ingredientId := rel.start
    let em := if omapHas st.edgeMap pairId then st.edgeMap
              else omapSet st.edgeMap pairId []
    { st with edgeMap := omapUpdate em pairId (fun l => l ++ [ingredientId]) }
  else if rel.type = "RESULTS_IN" then
    let pairId := rel.start
    let resultId := rel.«end»
    let rr := if omapHas st.recipeResults resultId then st.recipeResults
              else omapSet st.recipeResults resultId []
    { st with
      recipeResults := omapUpdate rr resultId (fun l => l ++ [pairId]),
      edgeResultMap := omapSet st.edgeResultMap ("result_" ++ pairId) resultId }
  else st

/-- The per-result collection of two-ingredient pair lists (the final
`nodeMap.forEach` of `processDAGData`): pairs whose collected
ingredient list does not have exactly two entries are dropped. -/
def collectSets (em : List (String × List String)) (pairs : List String) :
    List (List String) :=
  pairs.foldl
    (fun acc pairId =>
      if omapHas em pairId then
        let ingredients := (omapGet em pairId).getD []
        if ingredients.length = 2 then acc ++ [ingredients] else acc
      else acc)
    []

def processDAGData (data : DagData) : DagState :=
  let st0 : DagState :=
    { emptyDagState with
      nodeMap := data.nodes.foldl (fun m node => omapSet m node.id node) [] }
  let st1 := data.relationships.foldl processRel st0
  { st1 with
    recipeIngredients :=
      st1.nodeMap.foldl
        (fun ri p =>
          if omapHas st1.recipeResults p.1 then
            omapSet ri p.1
              (collectSets st1.edgeMap ((omapGet st1.recipeResults p.1).getD []))
          else ri)
        [] }

/-! ## `buildTree` -/

def MAX_TREE_DEPTH : Nat := 6

def BASIC_ELEMENTS : List String := ["Fire", "Water", "Earth", "Wind"]

/-- JS `Array.prototype.indexOf` over the candidate ingredient sets
(returning the list length instead of `-1` when absent; the JS loop
only ever queries elements of the list). -/
def idxOf : List (List String) → List String → Nat
  | [], _ => 0
  | x :: xs, s => if x = s then 0 else idxOf xs s + 1

/-- `ingredientSet.map(id => buildTree(id, new Set(visited), depth + 1,
maxDepth)).filter(Boolean)`, with the id counter threaded through every
child call (the JS `filter` has no side effect, so filtering during the
traversal is equivalent). -/
def mapBuild (build : String → Nat → Option CraftTree × Nat) :
    List String → Nat → List CraftTree × Nat
  | [], ctr => ([], ctr)
  | i :: rest, ctr =>
    let r := build i ctr
    let rs := mapBuild build rest r.2
    (match r.1 with
     | some t => t :: rs.1
     | none => rs.1, rs.2)

/-- The `for (const ingredientSet of ingredientSets)` candidate loop of
`buildTree`: skip-break once past the first three candidates when more
than five exist, keep a candidate only when it resolves strictly more
children than the current best, and break as soon as a candidate
resolves two children. -/
def tryCandidates (build : String → Nat → Option CraftTree × Nat)
    (allSets : List (List String)) :
    List (List String) → List CraftTree → Nat → List CraftTree × Nat
  | [], best, ctr => (best, ctr)
  | s :: rest, best, ctr =>
    if allSets.length > 5 ∧ idxOf allSets s ≥ 3 then (best, ctr)
    else
      let r := mapBuild build s ctr
      let best1 := if r.1.length > best.length then r.1 else best
      if r.1.length = 2 then (best1, r.2)
      else tryCandidates build allSets rest best1 r.2

/-- The body of `buildTree`, by recursion on the gas value
`maxDepth + 1 - depth`; gas `0` is exactly the JS guard
`depth > maxDepth`, and each child call runs at gas one less. -/
def buildTreeGo (st : DagState) : Nat → String → List String → Nat →
    Option CraftTree × Nat
  | 0, elementId, _visited, ctr =>
    match omapGet st.nodeMap elementId with
    | none => (none, ctr)
    | some elementNode =>
      let elementName := elementNode.properties.name
      let r := generateUniqueId elementName ctr
      (some (.node r.1 elementName true (some elementId) none true), r.2)
  | g + 1, elementId, visited, ctr =>
    if elementId ∈ visited then (none, ctr)
    else
      match omapGet st.nodeMap elementId with
      | none => (none, ctr)
      | some elementNode =>
        let elementName := elementNode.properties.name
        let visited1 := elementId :: visited
        let isBasic : Bool :=
          BASIC_ELEMENTS.contains elementName ∨ elementNode.properties.depth = some 0
        if isBasic ∨ ¬ omapHas st.recipeIngredients elementId then
          let r := generateUniqueId elementName ctr
          (some (.node r.1 elementName isBasic (some elementId) none false), r.2)
        else
          let ingredientSets := (omapGet st.recipeIngredients elementId).getD []
          if ingredientSets.length > 0 then
            let b := tryCandidates (fun i c => buildTreeGo st g i visited1 c)
              ingredientSets ingredientSets [] ctr
            if b.1.length > 0 then
              let r := generateUniqueId elementName b.2
              (some (.node r.1 elementName false (some elementId) (some b.1) false), r.2)
            else
              let r := generateUniqueId elementName b.2
              (some (.node r.1 elementName true (some elementId) none false), r.2)
          else
            let r := generateUniqueId elementName ctr
            (some (.node r.1 elementName true (some elementId) none false), r.2)

/-- JS `buildTree(elementId, visited, depth, maxDepth)`. -/
def buildTree (st : DagState) (elementId : String) (visited : List String)
    (depth : Nat) (maxDepth : Nat) (ctr : Nat) : Option CraftTree × Nat :=
  buildTreeGo st (maxDepth + 1 - depth) elementId visited ctr

/-! ## `findElementByName` -/

def nodeFind : List (String × DagNode) → String → Option DagNode
  | [], _ => none
  | p :: ps, n => if p.2.properties.name = n then some p.2 else nodeFind ps n

/-- JS `findElementByName`: the first node, in `nodeMap` insertion
order, whose `properties.name` equals the query (case-sensitively). -/
def findElementByName (st : DagState) (name : String) : Option DagNode :=
  nodeFind st.nodeMap name

/-! ## `buildCraftingTree` and the module state -/

inductive FetchResult : Type where
  | ok (data : DagData) : FetchResult
  | err : FetchResult
  deriving Repr, DecidableEq

/-- The module-level mutable state of `craftingTree.js`, plus an
explicit heap of tree objects used to express reference identity:
returned trees and cached clones live in distinct heap slots. -/
structure AppState where
  heap : List CraftTree
  cachedDAGData : Option DagData
  dag : DagState
  recipeCache : LRUCache Nat
  idCounter : Nat

/-- The initial module state (`recipeCache = new LRUCache(50)`). -/
def initAppState : AppState :=
  ⟨[], none, emptyDagState, LRUCache.mkEmpty Nat 50, 0⟩

/-- Allocate a fresh tree object (a `structuredClone`, an object
literal, or the object graph produced by `buildTree`). -/
def alloc (st : AppState) (t : CraftTree) : Nat × AppState :=
  (st.heap.length, { st with heap := st.heap ++ [t] })

def defaultTree : CraftTree := .node "" "" true none none false

def derefTree (st : AppState) (r : Nat) : CraftTree :=
  st.heap.getD r defaultTree

/-- JS `loadDAGData`: return the cached data when present; otherwise
fetch (consuming the head of the oracle list).  A failed fetch or parse
returns `{ nodes: [], relationships: [] }` and leaves `cachedDAGData`
unset; a successful one caches the data and processes it into the
lookup tables. -/
def loadDAGData (st : AppState) (oracle : List FetchResult) :
    DagData × AppState × List FetchResult :=
  match st.cachedDAGData with
  | some d => (d, st, oracle)
  | none =>
    match oracle with
    | FetchResult.ok d :: rest =>
      (d, { st with cachedDAGData := some d, dag := processDAGData d }, rest)
    | FetchResult.err :: rest => (⟨[], []⟩, st, rest)
    | [] => (⟨[], []⟩, st, [])

/-- JS `buildCraftingTree(targetName)`.  Returns a heap reference to
the tree handed to the caller, together with the updated module state
and the remaining fetch oracle. -/
def buildCraftingTree (targetName : String) (st0 : AppState)
    (oracle : List FetchResult) : Nat × AppState × List FetchResult :=
  let stR := { st0 with idCounter := 0 }
  let load := loadDAGData stR oracle
  let st := load.2.1
  let oracle1 := load.2.2
  let cacheKey := toLowerCase targetName
  if st.recipeCache.has cacheKey then
    let g := st.recipeCache.get cacheKey
    let cached := derefTree st (g.1.getD 0)
    let a := alloc { st with recipeCache := g.2 } cached
    (a.1, a.2, oracle1)
  else
    match findElementByName st.dag targetName with
    | none =>
      let u := generateUniqueId targetName st.idCounter
      let a := alloc { st with idCounter := u.2 }
        (.node ("unknown-" ++ u.1) targetName true none (some []) false)
      (a.1, a.2, oracle1)
    | some targetElement =>
      let b := buildTree st.dag targetElement.id [] 0 MAX_TREE_DEPTH st.idCounter
      match b.1 with
      | none =>
        let u := generateUniqueId targetName b.2
        let a := alloc { st with idCounter := u.2 }
          (.node ("basic-" ++ u.1) targetName true none (some []) false)
        (a.1, a.2, oracle1)
      | some tree =>
        let a1 := alloc { st with idCounter := b.2 } tree
        let a2 := alloc a1.2 tree
        (a1.1,
          { a2.2 with recipeCache := a2.2.recipeCache.set cacheKey a2.1 },
          oracle1)

/-- The value `buildCraftingTree` computes on a cache miss (the
`findElementByName` / `buildTree` path), used to state that an evicted
key triggers a fresh build rather than a cache hit. -/
def freshBuildResult (st : AppState) (targetName : String) : CraftTree :=
  match findElementByName st.dag targetName with
  | none =>
    let u := generateUniqueId targetName 0
    .node ("unknown-" ++ u.1) targetName true none (some []) false
  | some targetElement =>
    let b := buildTree st.dag targetElement.id [] 0 MAX_TREE_DEPTH 0
    match b.1 with
    | none =>
      let u := generateUniqueId targetName b.2
      .node ("basic-" ++ u.1) targetName true none (some []) false
    | some tree => tree

/-! ## Tree predicates -/

mutual
/-- Check a node-local property at every node of a tree. -/
def treeAllB (p : CraftTree → Bool) : CraftTree → Bool
  | .node i n b o none d => p (.node i n b o none d)
  | .node i n b o (some l) d => p (.node i n b o (some l) d) && forestAllB p l

def forestAllB (p : CraftTree → Bool) : List CraftTree → Bool
  | [] => true
  | t :: ts => treeAllB p t && forestAllB p ts
end

def treeAnyB (p : CraftTree → Bool) (t : CraftTree) : Bool :=
  !(treeAllB (fun x => !(p x)) t)

mutual
/-- The no-repeated-`originalId` property exactly as the specification
states it: along every root-to-leaf path, no node's `originalId` may
already have occurred above it (no exception for depth-limited
leaves). -/
def noRepeatB (seen : List String) : CraftTree → Bool
  | .node _ _ _ oid none _ =>
    match oid with
    | some o => !(o ∈ seen : Bool)
    | none => true
  | .node _ _ _ oid (some l) _ =>
    match oid with
    | some o => !(o ∈ seen : Bool) && noRepeatAll (o :: seen) l
    | none => noRepeatAll seen l

def noRepeatAll (seen : List String) : List CraftTree → Bool
  | [] => true
  | t :: ts => noRepeatB seen t && noRepeatAll seen ts
end

mutual
/-- The amended path invariant that the code actually guarantees: a
depth-limited node must be a leaf but may repeat an ancestor's
`originalId`; every other node's `originalId` must be new on its
path. -/
def pathOkB (seen : List String) : CraftTree → Bool
  | .node _ _ _ oid none dl =>
    if dl then true
    else
      match oid with
      | some o => !(o ∈ seen : Bool)
      | none => true
  | .node _ _ _ oid (some l) dl =>
    if dl then false
    else
      match oid with
      | some o => !(o ∈ seen : Bool) && pathOkAll (o :: seen) l
      | none => pathOkAll seen l

def pathOkAll (seen : List String) : List CraftTree → Bool
  | [] => true
  | t :: ts => pathOkB seen t && pathOkAll seen ts
end

/-- The node-local shape invariant the code actually guarantees: a
basic node carries no ingredient subtrees (absent or, on the fallback
sentinels, an explicit empty array); a non-basic node carries either no
`ingredients` field (an element with no recipe entry) or exactly one or
two resolved subtrees. -/
def shapeLocalB (t : CraftTree) : Bool :=
  match t.ingredients with
  | none => true
  | some l =>
    if t.isBasic then l.isEmpty
    else (l.length = 1 ∨ l.length = 2 : Bool)

def treeShapeOkB : CraftTree → Bool := treeAllB shapeLocalB

/-! ## Concrete example graphs -/

def mkNode (i n : String) (d : Int) : DagNode := ⟨i, [], ⟨n, some d⟩⟩

def mkRel (t s e : String) : Relationship := ⟨t, s, e⟩

/-- The self-referential example of the specification: `A part-of P1`,
`B part-of P1`, `P1 results-in A`, so the (only) recipe for `A`
contains `A` itself. -/
def selfData : DagData :=
  ⟨[mkNode "A" "A" 1, mkNode "B" "B" 0],
   [mkRel "PART_OF" "A" "P1", mkRel "PART_OF" "B" "P1", mkRel "RESULTS_IN" "P1" "A"]⟩

def selfState : DagState := processDAGData selfData

/-- A recipe cycle `X0 ← (X1, B), X1 ← (X2, B), …, X6 ← (X0, B)` of
length seven: resolving `X0` reaches the occurrence of `X0` at depth 7,
where the depth guard fires before the cycle guard. -/
def cycData : DagData :=
  ⟨(List.range 7).map (fun i => mkNode ("X" ++ toString i) ("X" ++ toString i) 1)
     ++ [mkNode "B" "B" 0],
   (List.range 7).flatMap (fun i =>
     [mkRel "PART_OF" ("X" ++ toString ((i + 1) % 7)) ("P" ++ toString i),
      mkRel "PART_OF" "B" ("P" ++ toString i),
      mkRel "RESULTS_IN" ("P" ++ toString i) ("X" ++ toString i)])⟩

def cycTree : CraftTree :=
  ((buildTree (processDAGData cycData) "X0" [] 0 6 0).1).getD defaultTree

/-- A chain of twenty nested two-ingredient recipes:
`E0 ← (E1, F0), E1 ← (E2, F1), …, E19 ← (E20, F19)`. -/
def chainData : DagData :=
  ⟨(List.range 21).map (fun i => mkNode ("E" ++ toString i) ("E" ++ toString i) 1)
     ++ (List.range 20).map (fun i => mkNode ("F" ++ toString i) ("F" ++ toString i) 0),
   (List.range 20).flatMap (fun i =>
     [mkRel "PART_OF" ("E" ++ toString (i + 1)) ("P" ++ toString i),
      mkRel "PART_OF" ("F" ++ toString i) ("P" ++ toString i),
      mkRel "RESULTS_IN" ("P" ++ toString i) ("E" ++ toString i)])⟩

def chainTree : CraftTree :=
  ((buildTree (processDAGData chainData) "E0" [] 0 6 0).1).getD defaultTree

/-- The `Fire + Water = Steam` example of the specification. -/
def steamData : DagData :=
  ⟨[mkNode "fire" "Fire" 0, mkNode "water" "Water" 0, mkNode "steam" "Steam" 1],
   [mkRel "PART_OF" "fire" "P1", mkRel "PART_OF" "water" "P1",
    mkRel "RESULTS_IN" "P1" "steam"]⟩

/-- The module state once the steam graph has been fetched and
processed. -/
def steamState : AppState :=
  { initAppState with cachedDAGData := some steamData, dag := processDAGData steamData }

/-- Two distinct nodes whose names differ only in case: `findElementByName`
distinguishes them, but the recipe cache key does not. -/
def abData : DagData :=
  ⟨[mkNode "n1" "AB" 0, mkNode "n2" "ab" 0], []⟩

def abState : AppState :=
  { initAppState with cachedDAGData := some abData, dag := processDAGData abData }

/-! ## Basic lemmas about the ordered maps -/

theorem omapHas_eq_isSome {α : Type} (m : List (String × α)) (k : String) :
    omapHas m k = (omapGet m k).isSome := by
  induction m with
  | nil => rfl
  | cons p ps ih => by_cases h : p.1 = k <;> simp [omapHas, omapGet, h, ih]

theorem omapGet_set_self {α : Type} (m : List (String × α)) (k : String) (v : α) :
    omapGet (omapSet m k v) k = some v := by
  induction m with
  | nil => simp [omapSet, omapGet]
  | cons p ps ih => by_cases h : p.1 = k <;> simp [omapSet, omapGet, h, ih]

theorem omapGet_set_ne {α : Type} (m : List (String × α)) (k k' : String) (v : α)
    (h : k' ≠ k) : omapGet (omapSet m k v) k' = omapGet m k' := by
  have hkk : k ≠ k' := Ne.symm h
  induction m with
  | nil => simp [omapSet, omapGet, if_neg hkk]
  | cons p ps ih =>
    by_cases hp : p.1 = k
    · subst hp
      simp only [omapSet, if_pos rfl]
      simp [omapGet, if_neg hkk]
    · simp only [omapSet, if_neg hp]
      by_cases hp' : p.1 = k' <;> simp [omapGet, hp', ih]

theorem omapHas_set {α : Type} (m : List (String × α)) (k k' : String) (v : α) :
    omapHas (omapSet m k v) k' = (omapHas m k' || decide (k' = k)) := by
  by_cases h : k' = k
  · subst h
    simp [omapHas_eq_isSome, omapGet_set_self]
  · simp [omapHas_eq_isSome, omapGet_set_ne m k k' v h, h]

theorem omapGet_delete_self {α : Type} (m : List (String × α)) (k : String) :
    omapGet (omapDelete m k) k = none := by
  induction m with
  | nil => rfl
  | cons p ps ih =>
    by_cases h : p.1 = k
    · simpa [omapDelete, List.filter_cons, h] using ih
    · simpa [omapDelete, List.filter_cons, h, omapGet] using ih

theorem omapGet_delete_ne {α : Type} (m : List (String × α)) (k k' : String)
    (h : k' ≠ k) : omapGet (omapDelete m k) k' = omapGet m k' := by
  have hkk' : ¬ (k = k') := Ne.symm h
  induction m with
  | nil => rfl
  | cons p ps ih =>
    by_cases hp : p.1 = k
    · have hp' : ¬ p.1 = k' := by rw [hp]; exact hkk'
      simpa [omapDelete, List.filter_cons, hp, omapGet, hp', hkk'] using ih
    · by_cases hp' : p.1 = k'
      · simp [omapDelete, List.filter_cons, hp, omapGet, hp', hkk', h]
      · simpa [omapDelete, List.filter_cons, hp, omapGet, hp', hkk', h] using ih

theorem mem_omapSet {α : Type} (m : List (String × α)) (k : String) (v : α)
    (p : String × α) (h : p ∈ omapSet m k v) : p ∈ m ∨ p = (k, v) := by
  induction m with
  | nil => simpa [omapSet] using h
  | cons q qs ih =>
    by_cases hq : q.1 = k
    · simp only [omapSet, if_pos hq] at h
      rcases List.mem_cons.mp h with h | h
      · right; exact h
      · left; exact List.mem_cons_of_mem _ h
    · simp only [omapSet, if_neg hq] at h
      rcases List.mem_cons.mp h with h | h
      · left; exact h ▸ List.mem_cons_self _ _
      · rcases ih h with h' | h'
        · left; exact List.mem_cons_of_mem _ h'
        · right; exact h'

theorem omapHas_of_key_mem {α : Type} (m : List (String × α)) (k : String)
    (h : ∃ p ∈ m, p.1 = k) : omapHas m k = true := by
  induction m with
  | nil => simp at h
  | cons p ps ih =>
    rcases h with ⟨q, hq, hk⟩
    rcases List.mem_cons.mp hq with hq | hq
    · subst hq
      simp [omapHas, hk]
    · by_cases hp : p.1 = k
      · simp [omapHas, hp]
      · simp only [omapHas, if_neg hp]
        exact ih ⟨q, hq, hk⟩

/-! ## Structural lemmas about `buildTreeGo` -/

theorem buildTreeGo_zero_isSome (st : DagState) (e : String) (v : List String) (c : Nat) :
    ((buildTreeGo st 0 e v c).1).isSome = omapHas st.nodeMap e := by
  cases hn : omapGet st.nodeMap e <;>
    simp [buildTreeGo, hn, omapHas_eq_isSome]

theorem buildTreeGo_succ_isSome (st : DagState) (g : Nat) (e : String)
    (v : List String) (c : Nat) :
    ((buildTreeGo st (g + 1) e v c).1).isSome =
      (decide (e ∉ v) && omapHas st.nodeMap e) := by
  by_cases hv : e ∈ v
  · simp [buildTreeGo, hv]
  · cases hn : omapGet st.nodeMap e with
    | none => simp [buildTreeGo, hv, hn, omapHas_eq_isSome]
    | some n =>
      have hh : omapHas st.nodeMap e = true := by simp [omapHas_eq_isSome, hn]
      simp only [buildTreeGo, if_neg hv, hn, hh]
      split
      · simp [hv]
      · split
        · split <;> simp [hv]
        · simp [hv]

theorem buildTreeGo_originalId : ∀ (g : Nat) (st : DagState) (v : List String)
    (c : Nat) (t : CraftTree) (c' : Nat) (e : String),
    buildTreeGo st g e v c = (some t, c') → t.originalId = some e := by
  intro g st v c t c' e h
  cases g with
  | zero =>
    simp only [buildTreeGo] at h
    split at h
    · simp at h
    · rw [Prod.mk.injEq] at h
      obtain ⟨h1, _⟩ := h
      injection h1 with h2
      subst h2
      rfl
  | succ g =>
    simp only [buildTreeGo] at h
    split at h
    · simp at h
    · split at h
      · simp at h
      · split at h
        · rw [Prod.mk.injEq] at h
          obtain ⟨h1, _⟩ := h
          injection h1 with h2
          subst h2
          rfl
        · split at h
          · split at h
            · rw [Prod.mk.injEq] at h
              obtain ⟨h1, _⟩ := h
              injection h1 with h2
              subst h2
              rfl
            · rw [Prod.mk.injEq] at h
              obtain ⟨h1, _⟩ := h
              injection h1 with h2
              subst h2
              rfl
          · rw [Prod.mk.injEq] at h
            obtain ⟨h1, _⟩ := h
            injection h1 with h2
            subst h2
            rfl

/-! ## Well-formedness of the processed tables -/

/-- Every `nodeMap` entry is stored under the node's own id (as
`processDAGData` guarantees, since it only executes
`nodeMap.set(node.id, node)`). -/
def DagWF (st : DagState) : Prop := ∀ p ∈ st.nodeMap, p.1 = p.2.id

theorem nodeFind_mem (m : List (String × DagNode)) (n : String) (el : DagNode)
    (h : nodeFind m n = some el) : ∃ p ∈ m, p.2 = el := by
  induction m with
  | nil => simp [nodeFind] at h
  | cons p ps ih =>
    by_cases hp : p.2.properties.name = n
    · simp only [nodeFind, if_pos hp] at h
      injection h with h1
      exact ⟨p, List.mem_cons_self _ _, h1⟩
    · simp only [nodeFind, if_neg hp] at h
      obtain ⟨q, hq, hqe⟩ := ih h
      exact ⟨q, List.mem_cons_of_mem _ hq, hqe⟩

theorem processRel_nodeMap (st : DagState) (r : Relationship) :
    (processRel st r).nodeMap = st.nodeMap := by
  simp only [processRel]
  split_ifs <;> rfl

theorem foldl_processRel_nodeMap (rels : List Relationship) (st : DagState) :
    (rels.foldl processRel st).nodeMap = st.nodeMap := by
  induction rels generalizing st with
  | nil => rfl
  | cons r rs ih => rw [List.foldl_cons, ih, processRel_nodeMap]

theorem nodesFold_wf (nodes : List DagNode) (m : List (String × DagNode))
    (hm : ∀ p ∈ m, p.1 = p.2.id) :
    ∀ p ∈ nodes.foldl (fun m node => omapSet m node.id node) m, p.1 = p.2.id := by
  induction nodes generalizing m with
  | nil => exact hm
  | cons nd nds ih =>
    rw [List.foldl_cons]
    refine ih _ ?_
    intro p hp
    rcases mem_omapSet _ _ _ _ hp with h | h
    · exact hm p h
    · rw [h]

theorem processDAGData_nodeMap (data : DagData) :
    (processDAGData data).nodeMap =
      data.nodes.foldl (fun m node => omapSet m node.id node) [] := by
  simp only [processDAGData]
  rw [foldl_processRel_nodeMap]

theorem processDAGData_wf (data : DagData) : DagWF (processDAGData data) := by
  intro p hp
  rw [processDAGData_nodeMap] at hp
  exact nodesFold_wf data.nodes [] (by simp) p hp

/-- Core of claim C10: when `findElementByName` finds a node in a
well-formed table, the top-level `buildTree` call on its id cannot
return `null`. -/
theorem buildTree_found_isSome (st : DagState) (name : String) (el : DagNode) (c : Nat)
    (hwf : DagWF st) (h : findElementByName st name = some el) :
    ((buildTree st el.id [] 0 MAX_TREE_DEPTH c).1).isSome = true := by
  obtain ⟨p, hp, hpe⟩ := nodeFind_mem st.nodeMap name el h
  have hkey : p.1 = el.id := by rw [hwf p hp, hpe]
  have hhas : omapHas st.nodeMap el.id = true := omapHas_of_key_mem _ _ ⟨p, hp, hkey⟩
  show ((buildTreeGo st (6 + 1) el.id [] c).1).isSome = true
  rw [buildTreeGo_succ_isSome]
  simp [hhas]

/-! ## Lemmas about `buildCraftingTree` -/

theorem loadDAGData_cached (st : AppState) (oracle : List FetchResult) (d : DagData)
    (h : st.cachedDAGData = some d) : loadDAGData st oracle = (d, st, oracle) := by
  simp [loadDAGData, h]

theorem listGetD_append_self {α : Type} (l : List α) (t : α) (rest : List α) (d : α) :
    (l ++ t :: rest).getD l.length d = t := by
  induction l with
  | nil => rfl
  | cons a as ih => simpa using ih

/-- C10: the `basic-` fallback branch of `buildCraftingTree` is
unreachable: `processDAGData` stores every node under its own id, and
for every element `findElementByName` returns, the top-level
`buildTree` call on its id (empty visited set, depth 0) returns a
non-null tree. -/
theorem buildTree_basicFallback_unreachable :
    (∀ data : DagData, DagWF (processDAGData data)) ∧
    (∀ (st : DagState) (name : String) (el : DagNode) (c : Nat),
      DagWF st → findElementByName st name = some el →
      ((buildTree st el.id [] 0 MAX_TREE_DEPTH c).1).isSome = true) :=
  ⟨processDAGData_wf, fun st name el c hwf h => buildTree_found_isSome st name el c hwf h⟩

/-- Witness for C10 at the `Fire + Water = Steam` graph. -/
theorem buildTree_basicFallback_unreachable_witness :
    ((buildTree (processDAGData steamData) "steam" [] 0 MAX_TREE_DEPTH 0).1).isSome = true :=
  buildTree_basicFallback_unreachable.2 (processDAGData steamData) "Steam"
    (mkNode "steam" "Steam" 1) 0
    (buildTree_basicFallback_unreachable.1 steamData) (by rfl)

/-- C5 (amended): when the graph is already loaded and the recipe
cache holds no entry under the lowercased target name, the root of the
tree `buildCraftingTree` returns for a name that `findElementByName`
resolves has `originalId` equal to the id of the node found (the first
node, in insertion order, whose name matches case-sensitively).  The
"including when a previous resolution left a cache entry under the
lowercased key" part of the claim is refuted by the counterexample. -/
theorem buildCraftingTree_originalId_eq
    (st : AppState) (d : DagData) (name : String) (el : DagNode)
    (oracle : List FetchResult)
    (hc : st.cachedDAGData = some d)
    (hwf : DagWF st.dag)
    (hmiss : st.recipeCache.has (toLowerCase name) = false)
    (hfind : findElementByName st.dag name = some el) :
    (derefTree (buildCraftingTree name st oracle).2.1
      (buildCraftingTree name st oracle).1).originalId = some el.id := by
  have hload := loadDAGData_cached { st with idCounter := 0 } oracle d hc
  have hsome := buildTree_found_isSome st.dag name el 0 hwf hfind
  rcases hb : buildTree st.dag el.id [] 0 MAX_TREE_DEPTH 0 with ⟨t1, c2⟩
  rw [hb] at hsome
  cases t1 with
  | none => simp at hsome
  | some tree =>
    have horig : tree.originalId = some el.id :=
      buildTreeGo_originalId (MAX_TREE_DEPTH + 1 - 0) st.dag [] 0 tree c2 el.id hb
    simp only [buildCraftingTree, hload, hmiss, hfind, hb, Bool.false_eq_true,
      if_false, alloc, derefTree]
    rw [List.append_assoc, List.singleton_append, listGetD_append_self]
    exact horig

/-- Witness for C5 on the steam graph with an empty cache. -/
theorem buildCraftingTree_originalId_eq_witness :
    (derefTree (buildCraftingTree "Steam" steamState []).2.1
      (buildCraftingTree "Steam" steamState []).1).originalId = some "steam" :=
  buildCraftingTree_originalId_eq steamState steamData "Steam" (mkNode "steam" "Steam" 1)
    [] rfl (processDAGData_wf steamData) (by decide) (by rfl)

/-- Counterexample to C5 as stated: nodes `n1` (named "AB") and `n2`
(named "ab") share the lowercased cache key "ab".  After resolving
"AB" (cached under "ab"), resolving "ab" — for which
`findElementByName` returns `n2` — serves the cached tree, whose root
`originalId` is `n1`, not `n2`. -/
theorem buildCraftingTree_originalId_cacheCollision :
    findElementByName abState.dag "ab" = some (mkNode "n2" "ab" 0) ∧
    (derefTree
        (buildCraftingTree "ab" (buildCraftingTree "AB" abState []).2.1
          (buildCraftingTree "AB" abState []).2.2).2.1
        (buildCraftingTree "ab" (buildCraftingTree "AB" abState []).2.1
          (buildCraftingTree "AB" abState []).2.2).1).originalId
      ≠ some (mkNode "n2" "ab" 0).id := by
  decide

/-- C6 (amended): for a target name that matches no node in the loaded
graph and whose lowercased form is not a recipe-cache key,
`buildCraftingTree` returns the sentinel leaf: the requested name,
`isBasic = true`, an empty `ingredients` array, and an id prefixed
`"unknown-"`.  (It never raises: the embedding is a total function.)
The cache-key restriction is forced by the counterexample. -/
theorem buildCraftingTree_unknown_sentinel
    (st : AppState) (d : DagData) (name : String) (oracle : List FetchResult)
    (hc : st.cachedDAGData = some d)
    (hmiss : st.recipeCache.has (toLowerCase name) = false)
    (hfind : findElementByName st.dag name = none) :
    derefTree (buildCraftingTree name st oracle).2.1 (buildCraftingTree name st oracle).1 =
      CraftTree.node ("unknown-" ++ (generateUniqueId name 0).1) name true none
        (some []) false := by
  have hload := loadDAGData_cached { st with idCounter := 0 } oracle d hc
  simp only [buildCraftingTree, hload, hmiss, hfind, Bool.false_eq_true, if_false,
    alloc, derefTree]
  rw [listGetD_append_self]

/-- Witness for C6: the name "Mud" matches nothing in the steam graph. -/
theorem buildCraftingTree_unknown_sentinel_witness :
    derefTree (buildCraftingTree "Mud" steamState []).2.1
        (buildCraftingTree "Mud" steamState []).1 =
      CraftTree.node ("unknown-" ++ (generateUniqueId "Mud" 0).1) "Mud" true none
        (some []) false :=
  buildCraftingTree_unknown_sentinel steamState steamData "Mud" [] rfl
    (by decide) (by rfl)

/-- Counterexample to C6 as stated: "STEAM" matches no node
(`findElementByName` is case-sensitive and the node is named "Steam"),
yet after "Steam" has been resolved and cached under the lowercased
key "steam", resolving "STEAM" hits the cache and returns the real
Steam tree (`isBasic = false`), not the `unknown-` sentinel. -/
theorem buildCraftingTree_unknown_cacheCollision :
    findElementByName steamState.dag "STEAM" = none ∧
    (derefTree
        (buildCraftingTree "STEAM" (buildCraftingTree "Steam" steamState []).2.1
          (buildCraftingTree "Steam" steamState []).2.2).2.1
        (buildCraftingTree "STEAM" (buildCraftingTree "Steam" steamState []).2.1
          (buildCraftingTree "Steam" steamState []).2.2).1).isBasic = false := by
  decide

set_option maxRecDepth 4000 in
/-- C4 (amended): when `depth` exceeds `maxDepth` and the requested
element is present in the node table, `buildTree` returns the terminal
leaf `isDepthLimited = true, isBasic = true` referencing `elementId`,
without recursing (the leaf carries no ingredients); and resolving the
head of a chain of twenty nested two-ingredient recipes terminates
with at least one `isDepthLimited` leaf in the tree.  The claim's
unconditional "whenever depth exceeds the maximum" half is refuted by
the counterexample: for an element id absent from the node table the
function returns `null`, not a leaf. -/
theorem buildTree_depth_guard :
    (∀ (st : DagState) (e : String) (v : List String) (depth maxDepth c : Nat)
      (n : DagNode), depth > maxDepth → omapGet st.nodeMap e = some n →
      buildTree st e v depth maxDepth c =
        (some (CraftTree.node (generateUniqueId n.properties.name c).1
          n.properties.name true (some e) none true),
         (generateUniqueId n.properties.name c).2)) ∧
    (((buildTree (processDAGData chainData) "E0" [] 0 6 0).1).isSome = true ∧
      treeAnyB CraftTree.isDepthLimited chainTree = true) := by
  constructor
  · intro st e v depth maxDepth c n hd hn
    have h0 : maxDepth + 1 - depth = 0 := by omega
    simp only [buildTree, h0, buildTreeGo, hn]
  · exact ⟨by decide, by decide⟩

/-- Witness for the hypothesis-bearing half of C4, at depth 7 on the
steam graph. -/
theorem buildTree_depth_guard_witness :
    buildTree (processDAGData steamData) "steam" [] 7 6 0 =
      (some (CraftTree.node (generateUniqueId "Steam" 0).1 "Steam" true
        (some "steam") none true), (generateUniqueId "Steam" 0).2) :=
  buildTree_depth_guard.1 (processDAGData steamData) "steam" [] 7 6 0
    (mkNode "steam" "Steam" 1) (by decide) (by rfl)

/-- Counterexample to C4 as stated: at `depth = 7 > MAX_TREE_DEPTH`,
an element id that is not in the node table yields `null`, not a
terminal `isDepthLimited` leaf referencing the id. -/
theorem buildTree_depth_guard_missingNode :
    buildTree emptyDagState "x" [] 7 6 0 = (none, 0) := by rfl

theorem loadDAGData_err (st : AppState) (rest : List FetchResult)
    (h : st.cachedDAGData = none) :
    loadDAGData st (FetchResult.err :: rest) = (⟨[], []⟩, st, rest) := by
  simp [loadDAGData, h]

/-- C9 (amended): a graph-load failure leaves `cachedDAGData` unset, so
the next resolution re-attempts the load (one fetch outcome is
consumed per failing call); while every attempt fails the index stays
empty and each resolution returns the `unknown-` sentinel without
raising, leaving the cache, the index and the unloaded flag
unchanged.  The "not retried" part of the claim is refuted by the
counterexample, where the second resolution's retry succeeds. -/
theorem loadDAGData_failure_degrade
    (st : AppState) (name : String) (rest : List FetchResult)
    (hc : st.cachedDAGData = none)
    (hnm : st.dag.nodeMap = [])
    (hmiss : st.recipeCache.has (toLowerCase name) = false) :
    derefTree (buildCraftingTree name st (FetchResult.err :: rest)).2.1
        (buildCraftingTree name st (FetchResult.err :: rest)).1 =
      CraftTree.node ("unknown-" ++ (generateUniqueId name 0).1) name true none
        (some []) false ∧
    (buildCraftingTree name st (FetchResult.err :: rest)).2.2 = rest ∧
    (buildCraftingTree name st (FetchResult.err :: rest)).2.1.cachedDAGData = none ∧
    (buildCraftingTree name st (FetchResult.err :: rest)).2.1.dag = st.dag ∧
    (buildCraftingTree name st (FetchResult.err :: rest)).2.1.recipeCache =
      st.recipeCache := by
  have hload := loadDAGData_err { st with idCounter := 0 } rest hc
  have hfind : findElementByName st.dag name = none := by
    rw [findElementByName, hnm]
    rfl
  refine ⟨?_, ?_, ?_, ?_, ?_⟩ <;>
    simp only [buildCraftingTree, hload, hmiss, hfind, Bool.false_eq_true, if_false,
      alloc, derefTree]
  · rw [listGetD_append_self]
  · exact hc

/-- Witness for C9 on a fresh module state whose first fetch fails. -/
theorem loadDAGData_failure_degrade_witness :
    derefTree (buildCraftingTree "Steam" initAppState [FetchResult.err]).2.1
        (buildCraftingTree "Steam" initAppState [FetchResult.err]).1 =
      CraftTree.node ("unknown-" ++ (generateUniqueId "Steam" 0).1) "Steam" true none
        (some []) false :=
  (loadDAGData_failure_degrade initAppState "Steam" [] rfl rfl (by decide)).1

/-- Counterexample to C9 as stated: the failure is retried.  With
fetch outcomes `[err, ok steamGraph]`, the first resolution returns
the sentinel, but it consumes only the first outcome, and the second
resolution re-attempts the load, succeeds, and returns the real Steam
tree (`isBasic = false`) instead of the unknown-element fallback. -/
theorem loadDAGData_retry :
    (buildCraftingTree "Steam" initAppState
        [FetchResult.err, FetchResult.ok steamData]).2.2 =
      [FetchResult.ok steamData] ∧
    (derefTree (buildCraftingTree "Steam" initAppState
        [FetchResult.err, FetchResult.ok steamData]).2.1
      (buildCraftingTree "Steam" initAppState
        [FetchResult.err, FetchResult.ok steamData]).1).isBasic = true ∧
    (derefTree
        (buildCraftingTree "Steam"
          (buildCraftingTree "Steam" initAppState
            [FetchResult.err, FetchResult.ok steamData]).2.1
          (buildCraftingTree "Steam" initAppState
            [FetchResult.err, FetchResult.ok steamData]).2.2).2.1
        (buildCraftingTree "Steam"
          (buildCraftingTree "Steam" initAppState
            [FetchResult.err, FetchResult.ok steamData]).2.1
          (buildCraftingTree "Steam" initAppState
            [FetchResult.err, FetchResult.ok steamData]).2.2).1).isBasic = false := by
  decide

/-! ## Lemmas about the candidate loop -/

theorem mapBuild_mem (build : String → Nat → Option CraftTree × Nat) :
    ∀ (s : List String) (c : Nat) (t : CraftTree), t ∈ (mapBuild build s c).1 →
      ∃ i ∈ s, ∃ c0 c1, build i c0 = (some t, c1) := by
  intro s
  induction s with
  | nil => intro c t h; simp [mapBuild] at h
  | cons i rest ih =>
    intro c t h
    simp only [mapBuild] at h
    cases hb : (build i c).1 with
    | some t0 =>
      rw [hb] at h
      rcases List.mem_cons.mp h with h | h
      · subst h
        exact ⟨i, List.mem_cons_self _ _, c, (build i c).2, Prod.ext hb rfl⟩
      · obtain ⟨j, hj, c0, c1, he⟩ := ih (build i c).2 t h
        exact ⟨j, List.mem_cons_of_mem _ hj, c0, c1, he⟩
    | none =>
      rw [hb] at h
      obtain ⟨j, hj, c0, c1, he⟩ := ih (build i c).2 t h
      exact ⟨j, List.mem_cons_of_mem _ hj, c0, c1, he⟩

theorem tryCandidates_mem (build : String → Nat → Option CraftTree × Nat)
    (all : List (List String)) :
    ∀ (rem : List (List String)) (best : List CraftTree) (c : Nat) (t : CraftTree),
      t ∈ (tryCandidates build all rem best c).1 →
      t ∈ best ∨ ∃ s ∈ rem, ∃ c0, t ∈ (mapBuild build s c0).1 := by
  intro rem
  induction rem with
  | nil => intro best c t h; exact Or.inl h
  | cons s rest ih =>
    intro best c t h
    simp only [tryCandidates] at h
    split at h
    · exact Or.inl h
    · split at h
      · by_cases himp : (mapBuild build s c).1.length > best.length
        · rw [if_pos himp] at h
          exact Or.inr ⟨s, List.mem_cons_self _ _, c, h⟩
        · rw [if_neg himp] at h
          exact Or.inl h
      · rcases ih _ _ t h with h' | ⟨s', hs', c0, h'⟩
        · by_cases himp : (mapBuild build s c).1.length > best.length
          · rw [if_pos himp] at h'
            exact Or.inr ⟨s, List.mem_cons_self _ _, c, h'⟩
          · rw [if_neg himp] at h'
            exact Or.inl h'
        · exact Or.inr ⟨s', List.mem_cons_of_mem _ hs', c0, h'⟩

theorem mapBuild_length_le (build : String → Nat → Option CraftTree × Nat) :
    ∀ (s : List String) (c : Nat), ((mapBuild build s c).1).length ≤ s.length := by
  intro s
  induction s with
  | nil => intro c; simp [mapBuild]
  | cons i rest ih =>
    intro c
    simp only [mapBuild]
    cases hb : (build i c).1 <;> simp [hb]
    · exact Nat.le_succ_of_le (ih _)
    · exact ih _

theorem tryCandidates_fst_cases (build : String → Nat → Option CraftTree × Nat)
    (all : List (List String)) :
    ∀ (rem : List (List String)) (best : List CraftTree) (c : Nat),
      (tryCandidates build all rem best c).1 = best ∨
      ∃ s ∈ rem, ∃ c0, (tryCandidates build all rem best c).1 = (mapBuild build s c0).1 := by
  intro rem
  induction rem with
  | nil => intro best c; exact Or.inl rfl
  | cons s rest ih =>
    intro best c
    simp only [tryCandidates]
    split
    · exact Or.inl rfl
    · split
      · by_cases himp : (mapBuild build s c).1.length > best.length
        · rw [if_pos himp]
          exact Or.inr ⟨s, List.mem_cons_self _ _, c, rfl⟩
        · rw [if_neg himp]
          exact Or.inl rfl
      · by_cases himp : (mapBuild build s c).1.length > best.length
        · rw [if_pos himp]
          rcases ih ((mapBuild build s c).1) (mapBuild build s c).2 with h' | ⟨s', hs', c0, h'⟩
          · exact Or.inr ⟨s, List.mem_cons_self _ _, c, h'⟩
          · exact Or.inr ⟨s', List.mem_cons_of_mem _ hs', c0, h'⟩
        · rw [if_neg himp]
          rcases ih best (mapBuild build s c).2 with h' | ⟨s', hs', c0, h'⟩
          · exact Or.inl h'
          · exact Or.inr ⟨s', List.mem_cons_of_mem _ hs', c0, h'⟩

/-! ## Lemmas about the tree predicates -/

theorem pathOkAll_of_forall (seen : List String) :
    ∀ (l : List CraftTree), (∀ t ∈ l, pathOkB seen t = true) → pathOkAll seen l = true := by
  intro l
  induction l with
  | nil => intro _; rfl
  | cons t ts ih =>
    intro h
    show (pathOkB seen t && pathOkAll seen ts) = true
    rw [h t (List.mem_cons_self _ _), ih (fun u hu => h u (List.mem_cons_of_mem _ hu))]
    rfl

theorem forestAllB_of_forall (p : CraftTree → Bool) :
    ∀ (l : List CraftTree), (∀ t ∈ l, treeAllB p t = true) → forestAllB p l = true := by
  intro l
  induction l with
  | nil => intro _; rfl
  | cons t ts ih =>
    intro h
    show (treeAllB p t && forestAllB p ts) = true
    rw [h t (List.mem_cons_self _ _), ih (fun u hu => h u (List.mem_cons_of_mem _ hu))]
    rfl

/-- The path invariant guaranteed by the cycle guard: every successful
`buildTreeGo` call yields a tree in which no non-depth-limited node
repeats an `originalId` from the current path (including the caller's
`visited` set), and depth-limited nodes are leaves. -/
theorem buildTreeGo_pathOk : ∀ (g : Nat) (st : DagState) (e : String)
    (v : List String) (c c' : Nat) (t : CraftTree),
    buildTreeGo st g e v c = (some t, c') → pathOkB v t = true := by
  intro g
  induction g with
  | zero =>
    intro st e v c c' t h
    simp only [buildTreeGo] at h
    split at h
    · simp at h
    · rw [Prod.mk.injEq] at h
      obtain ⟨h1, _⟩ := h
      injection h1 with h2
      subst h2
      rfl
  | succ g ih =>
    intro st e v c c' t h
    simp only [buildTreeGo] at h
    split at h
    · simp at h
    case isFalse hv =>
      split at h
      · simp at h
      case _ n hn =>
        split at h
        · rw [Prod.mk.injEq] at h
          obtain ⟨h1, _⟩ := h
          injection h1 with h2
          subst h2
          simp [pathOkB, hv]
        · split at h
          · split at h
            case isTrue hb =>
              rw [Prod.mk.injEq] at h
              obtain ⟨h1, _⟩ := h
              injection h1 with h2
              subst h2
              have hall : pathOkAll (e :: v)
                  (tryCandidates (fun i c => buildTreeGo st g i (e :: v) c)
                    ((omapGet st.recipeIngredients e).getD [])
                    ((omapGet st.recipeIngredients e).getD []) [] c).1 = true := by
                apply pathOkAll_of_forall
                intro t' ht'
                rcases tryCandidates_mem _ _ _ _ _ _ ht' with h0 | ⟨s, _, c0, hmem⟩
                · simp at h0
                · obtain ⟨i, _, c1, c2, heq⟩ := mapBuild_mem _ _ _ _ hmem
                  exact ih st i (e :: v) c1 c2 t' heq
              simp [pathOkB, hv, hall]
            case isFalse hb =>
              rw [Prod.mk.injEq] at h
              obtain ⟨h1, _⟩ := h
              injection h1 with h2
              subst h2
              simp [pathOkB, hv]
          · rw [Prod.mk.injEq] at h
            obtain ⟨h1, _⟩ := h
            injection h1 with h2
            subst h2
            simp [pathOkB, hv]

/-- C1 (amended): for every input graph — cyclic ones included — and
every target id, `buildTree` terminates (it is a total function) and
returns a finite tree in which no root-to-leaf path repeats an
`originalId` among non-depth-limited nodes; a node that repeats an
ancestor's `originalId` can only be a depth-limited leaf.  Resolving
the self-referential example (`A part-of P1, B part-of P1, P1
results-in A`) terminates and drops the cyclic ingredient: it returns
a non-basic node whose only child is the `B` leaf (not a basic leaf,
as the claim as stated says — see the counterexample for the strict
no-repeat property). -/
theorem buildTree_pathInvariant :
    (∀ (st : DagState) (e : String) (v : List String) (depth maxDepth c c' : Nat)
      (t : CraftTree), buildTree st e v depth maxDepth c = (some t, c') →
      pathOkB v t = true) ∧
    buildTree selfState "A" [] 0 6 0 =
      (some (CraftTree.node "a-2" "A" false (some "A")
        (some [CraftTree.node "b-1" "B" true (some "B") none false]) false), 2) :=
  ⟨fun st e v depth maxDepth c c' t h =>
    buildTreeGo_pathOk (maxDepth + 1 - depth) st e v c c' t h, by rfl⟩

/-- Witness for C1 on the seven-cycle graph: the amended invariant
holds on the very tree that refutes the strict one. -/
theorem buildTree_pathInvariant_witness : pathOkB [] cycTree = true :=
  buildTree_pathInvariant.1 (processDAGData cycData) "X0" [] 0 6 0
    (buildTree (processDAGData cycData) "X0" [] 0 6 0).2 cycTree (by rfl)

/-- Counterexample to C1 as stated: over the seven-cycle graph the
depth guard fires before the cycle guard, so the resolved tree for
`X0` contains the root-to-leaf path `X0, X1, …, X6, X0` — the strict
"no path repeats an originalId" property is violated (the repeated
node is the depth-limited leaf). -/
theorem buildTree_pathRepeat :
    ((buildTree (processDAGData cycData) "X0" [] 0 6 0).1).isSome = true ∧
    noRepeatB [] cycTree = false := by
  constructor
  · decide
  · decide

/-! ## The two-ingredient shape invariant -/

/-- Every candidate ingredient set stored in `recipeIngredients` has
exactly two entries (`processDAGData` drops malformed pairs). -/
def SetsWF (st : DagState) : Prop :=
  ∀ (k : String) (sets : List (List String)),
    omapGet st.recipeIngredients k = some sets → ∀ s ∈ sets, s.length = 2

theorem collectSets_length (em : List (String × List String)) (pairs : List String) :
    ∀ s ∈ collectSets em pairs, s.length = 2 := by
  suffices h : ∀ (ps : List String) (acc : List (List String)),
      (∀ s ∈ acc, s.length = 2) →
      ∀ s ∈ ps.foldl
        (fun acc pairId =>
          if omapHas em pairId then
            let ingredients := (omapGet em pairId).getD []
            if ingredients.length = 2 then acc ++ [ingredients] else acc
          else acc) acc, s.length = 2 by
    exact h pairs [] (by simp)
  intro ps
  induction ps with
  | nil => intro acc hacc; simpa using hacc
  | cons q qs ih =>
    intro acc hacc
    rw [List.foldl_cons]
    apply ih
    intro s hs
    split at hs
    · simp only [] at hs
      split at hs
      case isTrue h2 =>
        rcases List.mem_append.mp hs with hs | hs
        · exact hacc s hs
        · rw [List.mem_singleton.mp hs]
          exact h2
      · exact hacc s hs
    · exact hacc s hs

theorem riFold_wf (em : List (String × List String)) (rr : List (String × List String)) :
    ∀ (entries : List (String × DagNode)) (ri : List (String × List (List String))),
      (∀ k sets, omapGet ri k = some sets → ∀ s ∈ sets, s.length = 2) →
      ∀ k sets,
        omapGet (entries.foldl
          (fun ri p =>
            if omapHas rr p.1 then
              omapSet ri p.1 (collectSets em ((omapGet rr p.1).getD []))
            else ri) ri) k = some sets →
        ∀ s ∈ sets, s.length = 2 := by
  intro entries
  induction entries with
  | nil => intro ri hri; exact hri
  | cons p ps ih =>
    intro ri hri
    rw [List.foldl_cons]
    apply ih
    intro k sets hget
    split at hget
    · by_cases hk : k = p.1
      · subst hk
        rw [omapGet_set_self] at hget
        injection hget with hget
        subst hget
        exact collectSets_length em _
      · rw [omapGet_set_ne _ _ _ _ hk] at hget
        exact hri k sets hget
    · exact hri k sets hget

theorem processDAGData_setsWF (data : DagData) : SetsWF (processDAGData data) := by
  intro k sets hget s hs
  exact riFold_wf _ _ _ [] (by intro k sets h; simp [omapGet] at h) k sets hget s hs

theorem tryCandidates_length_le2 (build : String → Nat → Option CraftTree × Nat)
    (all rem : List (List String)) (best : List CraftTree) (c : Nat)
    (hlen : ∀ s ∈ rem, s.length = 2) (hbest : best.length ≤ 2) :
    ((tryCandidates build all rem best c).1).length ≤ 2 := by
  rcases tryCandidates_fst_cases build all rem best c with h | ⟨s, hs, c0, h⟩
  · rw [h]; exact hbest
  · rw [h]
    exact le_of_le_of_eq (mapBuild_length_le build s c0) (hlen s hs)

/-- The node-shape invariant guaranteed by the code: basic nodes carry
no ingredients; a non-basic node carries either no `ingredients` field
or exactly one or two resolved subtrees. -/
theorem buildTreeGo_shape : ∀ (g : Nat) (st : DagState), SetsWF st →
    ∀ (e : String) (v : List String) (c c' : Nat) (t : CraftTree),
    buildTreeGo st g e v c = (some t, c') → treeShapeOkB t = true := by
  intro g
  induction g with
  | zero =>
    intro st _ e v c c' t h
    simp only [buildTreeGo] at h
    split at h
    · simp at h
    · rw [Prod.mk.injEq] at h
      obtain ⟨h1, _⟩ := h
      injection h1 with h2
      subst h2
      rfl
  | succ g ih =>
    intro st hwf e v c c' t h
    simp only [buildTreeGo] at h
    split at h
    · simp at h
    case isFalse hv =>
      split at h
      · simp at h
      case _ n hn =>
        split at h
        · rw [Prod.mk.injEq] at h
          obtain ⟨h1, _⟩ := h
          injection h1 with h2
          subst h2
          simp [treeShapeOkB, treeAllB, shapeLocalB, CraftTree.ingredients]
        · split at h
          · split at h
            case isTrue hb =>
              rw [Prod.mk.injEq] at h
              obtain ⟨h1, _⟩ := h
              injection h1 with h2
              subst h2
              have hlen : ∀ s ∈ (omapGet st.recipeIngredients e).getD [], s.length = 2 := by
                cases hri : omapGet st.recipeIngredients e with
                | none => simp
                | some sets0 =>
                  intro s hs
                  exact hwf e sets0 hri s (by simpa using hs)
              have hle2 := tryCandidates_length_le2
                (fun i c => buildTreeGo st g i (e :: v) c)
                ((omapGet st.recipeIngredients e).getD [])
                ((omapGet st.recipeIngredients e).getD []) [] c hlen (by simp)
              have h12 :
                  ((tryCandidates (fun i c => buildTreeGo st g i (e :: v) c)
                    ((omapGet st.recipeIngredients e).getD [])
                    ((omapGet st.recipeIngredients e).getD []) [] c).1).length = 1 ∨
                  ((tryCandidates (fun i c => buildTreeGo st g i (e :: v) c)
                    ((omapGet st.recipeIngredients e).getD [])
                    ((omapGet st.recipeIngredients e).getD []) [] c).1).length = 2 := by
                omega
              have hforest : forestAllB shapeLocalB
                  (tryCandidates (fun i c => buildTreeGo st g i (e :: v) c)
                    ((omapGet st.recipeIngredients e).getD [])
                    ((omapGet st.recipeIngredients e).getD []) [] c).1 = true := by
                apply forestAllB_of_forall
                intro t' ht'
                rcases tryCandidates_mem _ _ _ _ _ _ ht' with h0 | ⟨s, _, c0, hmem⟩
                · simp at h0
                · obtain ⟨i, _, c1, c2, heq⟩ := mapBuild_mem _ _ _ _ hmem
                  exact ih st hwf i (e :: v) c1 c2 t' heq
              show (treeAllB shapeLocalB _) = true
              rw [treeAllB]
              rw [Bool.and_eq_true]
              refine ⟨?_, hforest⟩
              simp only [shapeLocalB, CraftTree.ingredients, CraftTree.isBasic,
                Bool.false_eq_true, if_false]
              rcases h12 with h12 | h12 <;> simp [h12]
            case isFalse hb =>
              rw [Prod.mk.injEq] at h
              obtain ⟨h1, _⟩ := h
              injection h1 with h2
              subst h2
              rfl
          · rw [Prod.mk.injEq] at h
            obtain ⟨h1, _⟩ := h
            injection h1 with h2
            subst h2
            rfl

theorem loadDAGData_heap (st : AppState) (o : List FetchResult) :
    (loadDAGData st o).2.1.heap = st.heap := by
  simp only [loadDAGData]
  split
  · rfl
  · split <;> rfl

theorem loadDAGData_recipeCache (st : AppState) (o : List FetchResult) :
    (loadDAGData st o).2.1.recipeCache = st.recipeCache := by
  simp only [loadDAGData]
  split
  · rfl
  · split <;> rfl

theorem loadDAGData_idCounter (st : AppState) (o : List FetchResult) :
    (loadDAGData st o).2.1.idCounter = st.idCounter := by
  simp only [loadDAGData]
  split
  · rfl
  · split <;> rfl

theorem loadDAGData_setsWF (st : AppState) (o : List FetchResult)
    (h : SetsWF st.dag) : SetsWF (loadDAGData st o).2.1.dag := by
  simp only [loadDAGData]
  split
  · exact h
  · split
    · exact processDAGData_setsWF _
    · exact h
    · exact h

theorem getD_mem_or_default {α : Type} :
    ∀ (l : List α) (r : Nat) (d : α), l.getD r d = d ∨ l.getD r d ∈ l := by
  intro l
  induction l with
  | nil => intro r d; left; cases r <;> rfl
  | cons a as ih =>
    intro r d
    cases r with
    | zero => right; exact List.mem_cons_self _ _
    | succ r =>
      rcases ih r d with h | h
      · left; simpa using h
      · right; exact List.mem_cons_of_mem _ (by simpa using h)

theorem alloc_deref (s : AppState) (t : CraftTree) :
    derefTree (alloc s t).2 (alloc s t).1 = t := by
  simp only [alloc, derefTree]
  exact listGetD_append_self s.heap t [] defaultTree

/-- C2 (amended): every node of every tree returned by `buildTree` (on
tables produced by `processDAGData`) or by `buildCraftingTree`
satisfies: if `isBasic` is true it carries no ingredient subtrees
(absent or empty); if `isBasic` is false its `ingredients`, when
present, holds exactly one or two subtrees (one occurs when only one
ingredient of the best candidate resolved — see the counterexample;
the claim's "exactly 0 or 2" is wrong), and an element with no recipe
entry yields a non-basic node with no `ingredients` field at all. -/
theorem buildTree_shape :
    (∀ data : DagData, SetsWF (processDAGData data)) ∧
    (∀ (st : DagState), SetsWF st → ∀ (e : String) (v : List String)
      (depth maxDepth c c' : Nat) (t : CraftTree),
      buildTree st e v depth maxDepth c = (some t, c') → treeShapeOkB t = true) ∧
    (∀ (st : AppState) (name : String) (oracle : List FetchResult),
      SetsWF st.dag → (∀ t ∈ st.heap, treeShapeOkB t = true) →
      treeShapeOkB (derefTree (buildCraftingTree name st oracle).2.1
        (buildCraftingTree name st oracle).1) = true) := by
  refine ⟨processDAGData_setsWF, ?_, ?_⟩
  · intro st hwf e v depth maxDepth c c' t h
    exact buildTreeGo_shape (maxDepth + 1 - depth) st hwf e v c c' t h
  · intro st name oracle hwf hheap
    have hW : SetsWF (loadDAGData { st with idCounter := 0 } oracle).2.1.dag :=
      loadDAGData_setsWF _ _ hwf
    have hH : (loadDAGData { st with idCounter := 0 } oracle).2.1.heap = st.heap :=
      loadDAGData_heap _ _
    simp only [buildCraftingTree]
    split
    · rw [alloc_deref]
      simp only [derefTree]
      rw [hH]
      rcases getD_mem_or_default st.heap
        (((loadDAGData { st with idCounter := 0 } oracle).2.1.recipeCache.get
          (toLowerCase name)).1.getD 0) defaultTree with hcase | hcase
      · rw [hcase]; rfl
      · exact hheap _ hcase
    · split
      next hfind =>
        rw [alloc_deref]
        simp [treeShapeOkB, treeAllB, shapeLocalB, forestAllB, CraftTree.ingredients,
          CraftTree.isBasic, List.isEmpty]
      next el hfind =>
        split
        next hb =>
          rw [alloc_deref]
          simp [treeShapeOkB, treeAllB, shapeLocalB, forestAllB, CraftTree.ingredients,
            CraftTree.isBasic, List.isEmpty]
        next tree hb =>
          simp only [alloc, derefTree]
          rw [hH, List.append_assoc, List.singleton_append, listGetD_append_self]
          exact buildTreeGo_shape (MAX_TREE_DEPTH + 1 - 0) _ hW el.id [] _ _ tree
            (Prod.ext hb rfl)

/-- Witness for C2 on the self-referential graph (whose tree is
exactly the one-ingredient case). -/
theorem buildTree_shape_witness :
    treeShapeOkB (((buildTree selfState "A" [] 0 6 0).1).getD defaultTree) = true :=
  buildTree_shape.2.1 selfState (buildTree_shape.1 selfData) "A" [] 0 6 0
    (buildTree selfState "A" [] 0 6 0).2
    (((buildTree selfState "A" [] 0 6 0).1).getD defaultTree) (by rfl)

/-- Counterexample to C2 as stated: over the self-referential graph
(`A`'s only recipe is `(A, B)`), the root of the tree for `A` is
non-basic and carries exactly one ingredient subtree — neither 0 nor
2. -/
theorem buildTree_shape_one_ingredient :
    (((buildTree selfState "A" [] 0 6 0).1).getD defaultTree).isBasic = false ∧
    ((((buildTree selfState "A" [] 0 6 0).1).getD defaultTree).ingredients.getD
      []).length = 1 := by
  constructor
  · decide
  · decide

/-! ## LRU cache lemmas -/

theorem LRUCache.has_iff_get {α : Type} (c : LRUCache α) (k : String) :
    c.has k = (omapGet c.cache k).isSome := omapHas_eq_isSome c.cache k

theorem LRUCache.set_present {α : Type} (c : LRUCache α) (k : String) (v : α)
    (h : c.has k = true) :
    (c.set k v).keys = c.keys.filter (fun x => !(x = k : Bool)) ++ [k] ∧
    ∀ k', (c.set k v).has k' = c.has k' := by
  constructor
  · simp only [LRUCache.set, h, if_true]
  · intro k'
    have h2 : omapHas c.cache k = true := h
    simp only [LRUCache.set, LRUCache.has, h2, if_true]
    rw [omapHas_set]
    by_cases hk : k' = k
    · subst hk
      simp [h2]
    · simp [hk]

theorem LRUCache.set_evicts {α : Type} (c : LRUCache α) (k : String) (v : α)
    (lru : String) (rest : List String)
    (hlru : c.has lru = true) (hrest : ∀ x ∈ rest, c.has x = true)
    (hnd : c.keys.Nodup)
    (hmiss : c.has k = false) (hkeys : c.keys = lru :: rest)
    (hfull : c.keys.length ≥ c.maxSize) :
    (c.set k v).keys = rest ++ [k] ∧
    (c.set k v).has lru = false ∧
    (∀ x ∈ rest, (c.set k v).has x = true) ∧
    (c.set k v).has k = true := by
  rw [hkeys] at hfull
  have hlk : lru ≠ k := by
    intro he
    rw [he, hmiss] at hlru
    exact Bool.false_ne_true hlru
  have hset : c.set k v =
      { c with keys := rest ++ [k], cache := omapSet (omapDelete c.cache lru) k v } := by
    simp only [LRUCache.set, hmiss, Bool.false_eq_true, if_false, hkeys, if_pos hfull]
  rw [hkeys] at hnd
  have hlnr : lru ∉ rest := (List.nodup_cons.mp hnd).1
  refine ⟨by rw [hset], ?_, ?_, ?_⟩
  · rw [hset]
    show omapHas (omapSet (omapDelete c.cache lru) k v) lru = false
    rw [omapHas_set]
    simp [hlk, omapHas_eq_isSome, omapGet_delete_self]
  · intro x hx
    rw [hset]
    show omapHas (omapSet (omapDelete c.cache lru) k v) x = true
    rw [omapHas_set]
    have hxl : x ≠ lru := fun he => hlnr (he ▸ hx)
    have h3 : omapHas (omapDelete c.cache lru) x = omapHas c.cache x := by
      rw [omapHas_eq_isSome, omapHas_eq_isSome, omapGet_delete_ne _ _ _ hxl]
    rw [h3]
    have h4 : omapHas c.cache x = true := hrest x hx
    simp [h4]
  · rw [hset]
    show omapHas (omapSet (omapDelete c.cache lru) k v) k = true
    rw [omapHas_set]
    simp

theorem LRUCache.set_fresh_room {α : Type} (c : LRUCache α) (k : String) (v : α)
    (hmiss : c.has k = false) (hroom : c.keys.length < c.maxSize) :
    (c.set k v).keys = c.keys ++ [k] ∧
    (∀ x, (c.set k v).has x = (c.has x || decide (x = k))) ∧
    (c.set k v).maxSize = c.maxSize := by
  have hnful : ¬ c.keys.length ≥ c.maxSize := by omega
  have hset : c.set k v = { c with keys := c.keys ++ [k], cache := omapSet c.cache k v } := by
    simp only [LRUCache.set, hmiss, Bool.false_eq_true, if_false, if_neg hnful]
  refine ⟨by rw [hset], ?_, by rw [hset]⟩
  intro x
  rw [hset]
  show omapHas (omapSet c.cache k v) x = _
  rw [omapHas_set]
  rfl

theorem lruFill_fresh {α : Type} (v : α) :
    ∀ (ks : List String) (c : LRUCache α),
      (∀ k ∈ ks, c.has k = false) → ks.Nodup →
      c.keys.length + ks.length ≤ c.maxSize →
      (ks.foldl (fun cc k => cc.set k v) c).keys = c.keys ++ ks ∧
      (∀ x, (ks.foldl (fun cc k => cc.set k v) c).has x =
        (c.has x || decide (x ∈ ks))) ∧
      (ks.foldl (fun cc k => cc.set k v) c).maxSize = c.maxSize := by
  intro ks
  induction ks with
  | nil =>
    intro c _ _ _
    refine ⟨by simp, ?_, rfl⟩
    intro x
    simp
  | cons k ks ih =>
    intro c hfresh hnd hroom
    have hmiss : c.has k = false := hfresh k (List.mem_cons_self _ _)
    have hlt : c.keys.length < c.maxSize := by
      simp only [List.length_cons] at hroom
      omega
    obtain ⟨hkeys1, hhas1, hmax1⟩ := LRUCache.set_fresh_room c k v hmiss hlt
    rw [List.foldl_cons]
    have hknotin : k ∉ ks := (List.nodup_cons.mp hnd).1
    obtain ⟨hkeys2, hhas2, hmax2⟩ := ih (c.set k v)
      (by
        intro k' hk'
        rw [hhas1 k']
        have : k' ≠ k := fun he => hknotin (he ▸ hk')
        simp [hfresh k' (List.mem_cons_of_mem _ hk'), this])
      (List.nodup_cons.mp hnd).2
      (by
        rw [hkeys1, hmax1]
        simp only [List.length_append, List.length_singleton]
        simp only [List.length_cons] at hroom
        omega)
    refine ⟨?_, ?_, by rw [hmax2, hmax1]⟩
    · rw [hkeys2, hkeys1, List.append_assoc, List.singleton_append]
    · intro x
      rw [hhas2 x, hhas1 x]
      by_cases hx : x = k <;> by_cases hx2 : x ∈ ks <;>
        simp [hx, hx2, List.mem_cons]

theorem lru_fill_evicts {α : Type} (v : α) (C : Nat) (k0 klast : String)
    (fr : List String)
    (hlen : (k0 :: fr).length = C)
    (hnd : ((k0 :: fr) ++ [klast]).Nodup) :
    (((k0 :: fr) ++ [klast]).foldl (fun cc k => cc.set k v)
      (LRUCache.mkEmpty α C)).has k0 = false := by
  rw [List.foldl_append]
  have hndf : (k0 :: fr).Nodup := (List.nodup_append.mp hnd).1
  have hfreshall : ∀ k ∈ (k0 :: fr), (LRUCache.mkEmpty α C).has k = false := by
    intro k _
    rfl
  obtain ⟨hkeys, hhas, hmax⟩ := lruFill_fresh v (k0 :: fr) (LRUCache.mkEmpty α C)
    hfreshall hndf (by simp [LRUCache.mkEmpty, hlen])
  have hklast : klast ∉ (k0 :: fr) := by
    have := List.nodup_append.mp hnd
    intro hmem
    exact this.2.2 hmem (List.mem_singleton_self _)
  simp only [List.foldl_cons, List.foldl_nil]
  have hkeys' : (((k0 :: fr)).foldl (fun cc k => cc.set k v)
      (LRUCache.mkEmpty α C)).keys = k0 :: fr := by
    rw [hkeys]
    rfl
  obtain ⟨_, hres, _, _⟩ := LRUCache.set_evicts
    ((k0 :: fr).foldl (fun cc k => cc.set k v) (LRUCache.mkEmpty α C)) klast v k0 fr
    (by rw [hhas]; simp)
    (by
      intro x hx
      rw [hhas]
      simp [List.mem_cons_of_mem _ hx])
    (by rw [hkeys']; exact hndf)
    (by
      rw [hhas]
      simp [LRUCache.has, LRUCache.mkEmpty, omapHas, hklast])
    hkeys'
    (by rw [hkeys', hmax, LRUCache.mkEmpty, hlen])
  exact hres

theorem buildCraftingTree_fresh (st : AppState) (d : DagData) (name : String)
    (oracle : List FetchResult)
    (hc : st.cachedDAGData = some d)
    (hmiss : st.recipeCache.has (toLowerCase name) = false) :
    derefTree (buildCraftingTree name st oracle).2.1 (buildCraftingTree name st oracle).1 =
      freshBuildResult st name := by
  have hload := loadDAGData_cached { st with idCounter := 0 } oracle d hc
  simp only [buildCraftingTree, hload, hmiss, Bool.false_eq_true, if_false]
  cases hfind : findElementByName st.dag name with
  | none =>
    simp only [hfind, freshBuildResult]
    rw [alloc_deref]
  | some el =>
    rcases hb : buildTree st.dag el.id [] 0 MAX_TREE_DEPTH 0 with ⟨t1, c2⟩
    cases t1 with
    | none =>
      simp only [hfind, hb, freshBuildResult]
      rw [alloc_deref]
    | some tree =>
      simp only [hfind, hb, freshBuildResult]
      simp only [alloc, derefTree]
      rw [List.append_assoc, List.singleton_append, listGetD_append_self]

/-- C8: the recipe cache is a fixed-capacity LRU (`new LRUCache(50)`):
`set` on a present key refreshes its recency without evicting anything;
`set` of a new key when the key list is at capacity evicts exactly the
least-recently-used key (the head of `keys`) and nothing else; after
inserting `C + 1` distinct keys into an empty cache of capacity `C`,
the first-inserted key is absent; and a resolution whose lowercased
name misses the cache performs a fresh build (its result is the value
computed by `findElementByName` / `buildTree`, not a cached tree). -/
theorem recipeCache_lru :
    initAppState.recipeCache.maxSize = 50 ∧
    (∀ (α : Type) (c : LRUCache α) (k : String) (v : α), c.has k = true →
      (c.set k v).keys = c.keys.filter (fun x => !(x = k : Bool)) ++ [k] ∧
      ∀ k', (c.set k v).has k' = c.has k') ∧
    (∀ (α : Type) (c : LRUCache α) (k : String) (v : α) (lru : String)
      (rest : List String),
      c.has lru = true → (∀ x ∈ rest, c.has x = true) → c.keys.Nodup →
      c.has k = false → c.keys = lru :: rest → c.keys.length ≥ c.maxSize →
      (c.set k v).keys = rest ++ [k] ∧
      (c.set k v).has lru = false ∧
      (∀ x ∈ rest, (c.set k v).has x = true) ∧
      (c.set k v).has k = true) ∧
    (∀ (α : Type) (v : α) (C : Nat) (k0 klast : String) (fr : List String),
      (k0 :: fr).length = C → ((k0 :: fr) ++ [klast]).Nodup →
      (((k0 :: fr) ++ [klast]).foldl (fun cc k => cc.set k v)
        (LRUCache.mkEmpty α C)).has k0 = false) ∧
    (∀ (st : AppState) (d : DagData) (name : String) (oracle : List FetchResult),
      st.cachedDAGData = some d → st.recipeCache.has (toLowerCase name) = false →
      derefTree (buildCraftingTree name st oracle).2.1
        (buildCraftingTree name st oracle).1 = freshBuildResult st name) :=
  ⟨rfl,
   fun _ c k v h => LRUCache.set_present c k v h,
   fun _ c k v lru rest hlru hrest hnd hmiss hkeys hfull =>
     LRUCache.set_evicts c k v lru rest hlru hrest hnd hmiss hkeys hfull,
   fun _ v C k0 klast fr hlen hnd => lru_fill_evicts v C k0 klast fr hlen hnd,
   fun st d name oracle hc hmiss => buildCraftingTree_fresh st d name oracle hc hmiss⟩

/-- Witness for C8: capacity 2, inserting "a", "b", "c" evicts "a";
refreshing a present key; eviction of the LRU head; and the fresh
build of "Steam" on an empty cache. -/
theorem recipeCache_lru_witness :
    (((LRUCache.mkEmpty Nat 2).set "a" 0).set "a" 1).keys = ["a"] ∧
    ((((LRUCache.mkEmpty Nat 2).set "a" 0).set "b" 1).set "c" 2).has "a" = false ∧
    ((((LRUCache.mkEmpty Nat 2).set "a" 0).set "b" 1).set "c" 2).has "b" = true ∧
    (["a", "b", "c"].foldl (fun cc k => cc.set k 0)
      (LRUCache.mkEmpty Nat 2)).has "a" = false ∧
    derefTree (buildCraftingTree "Steam" steamState []).2.1
        (buildCraftingTree "Steam" steamState []).1 =
      freshBuildResult steamState "Steam" := by
  refine ⟨?_, ?_, ?_, ?_, ?_⟩
  · have h := (recipeCache_lru.2.1 Nat ((LRUCache.mkEmpty Nat 2).set "a" 0) "a" 1
      (by decide)).1
    rw [h]
    decide
  · exact (recipeCache_lru.2.2.1 Nat (((LRUCache.mkEmpty Nat 2).set "a" 0).set "b" 1)
      "c" 2 "a" ["b"] (by decide) (by decide) (by decide) (by decide) (by decide)
      (by decide)).2.1
  · exact (recipeCache_lru.2.2.1 Nat (((LRUCache.mkEmpty Nat 2).set "a" 0).set "b" 1)
      "c" 2 "a" ["b"] (by decide) (by decide) (by decide) (by decide) (by decide)
      (by decide)).2.2.1 "b" (by decide)
  · exact recipeCache_lru.2.2.2.1 Nat 0 2 "a" "c" ["b"] (by decide) (by decide)
  · exact recipeCache_lru.2.2.2.2 steamState steamData "Steam" [] rfl (by decide)

/-! ## Heap and cache-reference lemmas for copy isolation -/

theorem omapGet_mem {α : Type} : ∀ (m : List (String × α)) (k : String) (v : α),
    omapGet m k = some v → (k, v) ∈ m := by
  intro m
  induction m with
  | nil => intro k v h; simp [omapGet] at h
  | cons p ps ih =>
    intro k v h
    by_cases hp : p.1 = k
    · simp only [omapGet, if_pos hp] at h
      injection h with h1
      rw [← hp, ← h1, Prod.mk.eta]
      exact List.mem_cons_self _ _
    · simp only [omapGet, if_neg hp] at h
      exact List.mem_cons_of_mem _ (ih k v h)

theorem listGetD_append_left {α : Type} :
    ∀ (l ext : List α) (j : Nat) (d : α), j < l.length →
      (l ++ ext).getD j d = l.getD j d := by
  intro l
  induction l with
  | nil => intro ext j d h; simp at h
  | cons a as ih =>
    intro ext j d h
    cases j with
    | zero => rfl
    | succ j =>
      simp only [List.length_cons] at h
      have := ih ext j d (by omega)
      simpa using this

theorem listGetD_set_ne {α : Type} :
    ∀ (l : List α) (i j : Nat) (m d : α), i ≠ j →
      (l.set i m).getD j d = l.getD j d := by
  intro l
  induction l with
  | nil => intro i j m d _; simp
  | cons a as ih =>
    intro i j m d hij
    cases i with
    | zero =>
      cases j with
      | zero => exact absurd rfl hij
      | succ j => simp [List.set]
    | succ i =>
      cases j with
      | zero => simp [List.set]
      | succ j =>
        have := ih i j m d (by omega)
        simpa [List.set] using this

theorem LRUCache.get_snd_cache {α : Type} (c : LRUCache α) (k : String) :
    ((c.get k).2).cache = c.cache := by
  simp only [LRUCache.get]
  split <;> rfl

theorem LRUCache.get_snd_maxSize {α : Type} (c : LRUCache α) (k : String) :
    ((c.get k).2).maxSize = c.maxSize := by
  simp only [LRUCache.get]
  split <;> rfl

theorem LRUCache.get_fst {α : Type} (c : LRUCache α) (k : String) (h : c.has k = true) :
    (c.get k).1 = omapGet c.cache k := by
  simp only [LRUCache.get, h, if_true]

theorem LRUCache.set_get_self {α : Type} (c : LRUCache α) (k : String) (v : α) :
    omapGet ((c.set k v).cache) k = some v := by
  simp only [LRUCache.set]
  split
  · exact omapGet_set_self _ _ _
  · split
    · split <;> exact omapGet_set_self _ _ _
    · exact omapGet_set_self _ _ _

theorem LRUCache.set_has_self {α : Type} (c : LRUCache α) (k : String) (v : α) :
    (c.set k v).has k = true := by
  show omapHas (c.set k v).cache k = true
  rw [omapHas_eq_isSome, LRUCache.set_get_self]
  rfl

theorem LRUCache.has_congr_cache {α : Type} (c c' : LRUCache α) (k : String)
    (h : c'.cache = c.cache) : c'.has k = c.has k := by
  show omapHas c'.cache k = omapHas c.cache k
  rw [h]

theorem bct_hit (st : AppState) (d : DagData) (name : String) (oracle : List FetchResult)
    (hc : st.cachedDAGData = some d)
    (hhit : st.recipeCache.has (toLowerCase name) = true) :
    buildCraftingTree name st oracle =
      (st.heap.length,
        { heap := st.heap ++ [st.heap.getD
            ((omapGet st.recipeCache.cache (toLowerCase name)).getD 0) defaultTree],
          cachedDAGData := st.cachedDAGData,
          dag := st.dag,
          recipeCache := (st.recipeCache.get (toLowerCase name)).2,
          idCounter := 0 },
        oracle) := by
  have hload := loadDAGData_cached { st with idCounter := 0 } oracle d hc
  have hh2 : omapHas st.recipeCache.cache (toLowerCase name) = true := hhit
  simp only [buildCraftingTree, hload, hhit, hh2, if_true, alloc, derefTree,
    LRUCache.get, LRUCache.has]

theorem bct_unknown (st : AppState) (d : DagData) (name : String)
    (oracle : List FetchResult)
    (hc : st.cachedDAGData = some d)
    (hmiss : st.recipeCache.has (toLowerCase name) = false)
    (hfind : findElementByName st.dag name = none) :
    buildCraftingTree name st oracle =
      (st.heap.length,
        { heap := st.heap ++ [CraftTree.node ("unknown-" ++ (generateUniqueId name 0).1)
            name true none (some []) false],
          cachedDAGData := st.cachedDAGData,
          dag := st.dag,
          recipeCache := st.recipeCache,
          idCounter := (generateUniqueId name 0).2 },
        oracle) := by
  have hload := loadDAGData_cached { st with idCounter := 0 } oracle d hc
  simp only [buildCraftingTree, hload, hmiss, Bool.false_eq_true, if_false, hfind, alloc]

theorem bct_basic (st : AppState) (d : DagData) (name : String) (el : DagNode)
    (oracle : List FetchResult) (c2 : Nat)
    (hc : st.cachedDAGData = some d)
    (hmiss : st.recipeCache.has (toLowerCase name) = false)
    (hfind : findElementByName st.dag name = some el)
    (hb : buildTree st.dag el.id [] 0 MAX_TREE_DEPTH 0 = (none, c2)) :
    buildCraftingTree name st oracle =
      (st.heap.length,
        { heap := st.heap ++ [CraftTree.node ("basic-" ++ (generateUniqueId name c2).1)
            name true none (some []) false],
          cachedDAGData := st.cachedDAGData,
          dag := st.dag,
          recipeCache := st.recipeCache,
          idCounter := (generateUniqueId name c2).2 },
        oracle) := by
  have hload := loadDAGData_cached { st with idCounter := 0 } oracle d hc
  simp only [buildCraftingTree, hload, hmiss, Bool.false_eq_true, if_false, hfind, hb,
    alloc]

theorem bct_success (st : AppState) (d : DagData) (name : String) (el : DagNode)
    (tree : CraftTree) (oracle : List FetchResult) (c2 : Nat)
    (hc : st.cachedDAGData = some d)
    (hmiss : st.recipeCache.has (toLowerCase name) = false)
    (hfind : findElementByName st.dag name = some el)
    (hb : buildTree st.dag el.id [] 0 MAX_TREE_DEPTH 0 = (some tree, c2)) :
    buildCraftingTree name st oracle =
      (st.heap.length,
        { heap := st.heap ++ [tree] ++ [tree],
          cachedDAGData := st.cachedDAGData,
          dag := st.dag,
          recipeCache := st.recipeCache.set (toLowerCase name) (st.heap ++ [tree]).length,
          idCounter := c2 },
        oracle) := by
  have hload := loadDAGData_cached { st with idCounter := 0 } oracle d hc
  simp only [buildCraftingTree, hload, hmiss, Bool.false_eq_true, if_false, hfind, hb,
    alloc]

theorem listGetD_append_second {α : Type} :
    ∀ (l : List α) (a b d : α), (l ++ a :: b :: []).getD (l.length + 1) d = b := by
  intro l
  induction l with
  | nil => intro a b d; rfl
  | cons x xs ih =>
    intro a b d
    simpa using ih a b d

theorem listGetD_append_third {α : Type} :
    ∀ (l : List α) (a b c d : α), (l ++ a :: b :: c :: []).getD (l.length + 1 + 1) d = c := by
  intro l
  induction l with
  | nil => intro a b c d; rfl
  | cons x xs ih =>
    intro a b c d
    simpa using ih a b c d
/-- C7 (amended): once the graph is loaded, calling `buildCraftingTree`
twice with the same target name yields structurally equal trees, the
two returned references are distinct heap objects, and overwriting the
first returned tree with any value leaves the second returned tree
unchanged (the cache stores and serves `structuredClone` copies).  The
claim as stated — without the loaded-graph proviso — is refuted by the
counterexample, where a failed load is retried between the calls. -/
theorem buildCraftingTree_copyIsolation
    (st : AppState) (d : DagData) (name : String) (oracle : List FetchResult)
    (hc : st.cachedDAGData = some d)
    (hrefs : ∀ p ∈ st.recipeCache.cache, p.2 < st.heap.length) :
    derefTree (buildCraftingTree name (buildCraftingTree name st oracle).2.1
        (buildCraftingTree name st oracle).2.2).2.1
      (buildCraftingTree name st oracle).1 =
    derefTree (buildCraftingTree name (buildCraftingTree name st oracle).2.1
        (buildCraftingTree name st oracle).2.2).2.1
      (buildCraftingTree name (buildCraftingTree name st oracle).2.1
        (buildCraftingTree name st oracle).2.2).1 ∧
    (buildCraftingTree name st oracle).1 ≠
      (buildCraftingTree name (buildCraftingTree name st oracle).2.1
        (buildCraftingTree name st oracle).2.2).1 ∧
    ∀ m : CraftTree,
      ((buildCraftingTree name (buildCraftingTree name st oracle).2.1
          (buildCraftingTree name st oracle).2.2).2.1.heap.set
        (buildCraftingTree name st oracle).1 m).getD
        (buildCraftingTree name (buildCraftingTree name st oracle).2.1
          (buildCraftingTree name st oracle).2.2).1 defaultTree =
      derefTree (buildCraftingTree name (buildCraftingTree name st oracle).2.1
          (buildCraftingTree name st oracle).2.2).2.1
        (buildCraftingTree name (buildCraftingTree name st oracle).2.1
          (buildCraftingTree name st oracle).2.2).1 := by
  have hmain : derefTree (buildCraftingTree name (buildCraftingTree name st oracle).2.1
        (buildCraftingTree name st oracle).2.2).2.1
      (buildCraftingTree name st oracle).1 =
    derefTree (buildCraftingTree name (buildCraftingTree name st oracle).2.1
        (buildCraftingTree name st oracle).2.2).2.1
      (buildCraftingTree name (buildCraftingTree name st oracle).2.1
        (buildCraftingTree name st oracle).2.2).1 ∧
    (buildCraftingTree name st oracle).1 ≠
      (buildCraftingTree name (buildCraftingTree name st oracle).2.1
        (buildCraftingTree name st oracle).2.2).1 := by
    by_cases hhit : st.recipeCache.has (toLowerCase name) = true
    · have h1 := bct_hit st d name oracle hc hhit
      have hsome : (omapGet st.recipeCache.cache (toLowerCase name)).isSome = true := by
        rw [← omapHas_eq_isSome]
        exact hhit
      rcases hget : omapGet st.recipeCache.cache (toLowerCase name) with _ | r0
      · rw [hget] at hsome
        simp at hsome
      · have hr0 : r0 < st.heap.length := hrefs _ (omapGet_mem _ _ _ hget)
        have hc2 : (buildCraftingTree name st oracle).2.1.cachedDAGData = some d := by
          rw [h1]
          exact hc
        have hhit2 : (buildCraftingTree name st oracle).2.1.recipeCache.has
            (toLowerCase name) = true := by
          rw [h1]
          show ((st.recipeCache.get (toLowerCase name)).2).has (toLowerCase name) = true
          rw [LRUCache.has_congr_cache st.recipeCache _ _ (LRUCache.get_snd_cache _ _)]
          exact hhit
        have h2 := bct_hit (buildCraftingTree name st oracle).2.1 d name
          (buildCraftingTree name st oracle).2.2 hc2 hhit2
        rw [h2, h1]
        simp only [derefTree, LRUCache.get_snd_cache, hget, Option.getD_some]
        constructor
        · simp only [List.length_append, List.length_cons, List.length_nil, Nat.zero_add]
          rw [List.append_assoc, List.singleton_append, listGetD_append_self,
            listGetD_append_second, listGetD_append_left _ _ _ _ hr0]
        · simp only [List.length_append, List.length_cons, List.length_nil]
          omega
    · have hmiss : st.recipeCache.has (toLowerCase name) = false :=
        Bool.not_eq_true _ ▸ Bool.eq_false_iff.mpr hhit
      cases hfind : findElementByName st.dag name with
      | none =>
        have h1 := bct_unknown st d name oracle hc hmiss hfind
        have hc2 : (buildCraftingTree name st oracle).2.1.cachedDAGData = some d := by
          rw [h1]
          exact hc
        have hmiss2 : (buildCraftingTree name st oracle).2.1.recipeCache.has
            (toLowerCase name) = false := by
          rw [h1]
          exact hmiss
        have hfind2 : findElementByName (buildCraftingTree name st oracle).2.1.dag
            name = none := by
          rw [h1]
          exact hfind
        have h2 := bct_unknown (buildCraftingTree name st oracle).2.1 d name
          (buildCraftingTree name st oracle).2.2 hc2 hmiss2 hfind2
        rw [h2, h1]
        simp only [derefTree]
        constructor
        · simp only [List.length_append, List.length_cons, List.length_nil, Nat.zero_add]
          rw [List.append_assoc, List.singleton_append, listGetD_append_self,
            listGetD_append_second]
        · simp only [List.length_append, List.length_cons, List.length_nil]
          omega
      | some el =>
        rcases hb : buildTree st.dag el.id [] 0 MAX_TREE_DEPTH 0 with ⟨t1, c2⟩
        cases t1 with
        | none =>
          have h1 := bct_basic st d name el oracle c2 hc hmiss hfind hb
          have hc2 : (buildCraftingTree name st oracle).2.1.cachedDAGData = some d := by
            rw [h1]
            exact hc
          have hmiss2 : (buildCraftingTree name st oracle).2.1.recipeCache.has
              (toLowerCase name) = false := by
            rw [h1]
            exact hmiss
          have hfind2 : findElementByName (buildCraftingTree name st oracle).2.1.dag
              name = some el := by
            rw [h1]
            exact hfind
          have hb2 : buildTree (buildCraftingTree name st oracle).2.1.dag el.id [] 0
              MAX_TREE_DEPTH 0 = (none, c2) := by
            rw [h1]
            exact hb
          have h2 := bct_basic (buildCraftingTree name st oracle).2.1 d name el
            (buildCraftingTree name st oracle).2.2 c2 hc2 hmiss2 hfind2 hb2
          rw [h2, h1]
          simp only [derefTree]
          constructor
          · simp only [List.length_append, List.length_cons, List.length_nil, Nat.zero_add]
            rw [List.append_assoc, List.singleton_append, listGetD_append_self,
              listGetD_append_second]
          · simp only [List.length_append, List.length_cons, List.length_nil]
            omega
        | some tree =>
          have h1 := bct_success st d name el tree oracle c2 hc hmiss hfind hb
          have hc2 : (buildCraftingTree name st oracle).2.1.cachedDAGData = some d := by
            rw [h1]
            exact hc
          have hhit2 : (buildCraftingTree name st oracle).2.1.recipeCache.has
              (toLowerCase name) = true := by
            rw [h1]
            exact LRUCache.set_has_self _ _ _
          have h2 := bct_hit (buildCraftingTree name st oracle).2.1 d name
            (buildCraftingTree name st oracle).2.2 hc2 hhit2
          rw [h2, h1]
          simp only [derefTree, LRUCache.set_get_self, Option.getD_some]
          constructor
          · simp only [List.length_append, List.length_cons, List.length_nil, Nat.zero_add]
            rw [List.append_assoc st.heap [tree] [tree], List.singleton_append,
              listGetD_append_second, List.append_assoc, List.cons_append,
              List.singleton_append, listGetD_append_self, listGetD_append_third]
          · simp only [List.length_append, List.length_cons, List.length_nil]
            omega
  refine ⟨hmain.1, hmain.2, ?_⟩
  intro m
  show _ = _
  rw [listGetD_set_ne _ _ _ _ _ hmain.2]
  rfl

/-- Witness for C7 on the loaded steam graph with an empty cache: the
two calls return distinct heap references. -/
theorem buildCraftingTree_copyIsolation_witness :
    (buildCraftingTree "Steam" steamState []).1 ≠
      (buildCraftingTree "Steam" (buildCraftingTree "Steam" steamState []).2.1
        (buildCraftingTree "Steam" steamState []).2.2).1 :=
  (buildCraftingTree_copyIsolation steamState steamData "Steam" [] rfl
    (by simp [steamState, initAppState, LRUCache.mkEmpty])).2.1

/-- Counterexample to C7 as stated: with fetch outcomes
`[err, ok steamGraph]`, the first call returns the unknown sentinel
(`isBasic = true`) and the second call — whose load retry succeeds —
returns the real Steam tree (`isBasic = false`): the two results are
not structurally equal. -/
theorem buildCraftingTree_retryBreaksEquality :
    (derefTree
        (buildCraftingTree "Steam" (buildCraftingTree "Steam" initAppState
            [FetchResult.err, FetchResult.ok steamData]).2.1
          (buildCraftingTree "Steam" initAppState
            [FetchResult.err, FetchResult.ok steamData]).2.2).2.1
        (buildCraftingTree "Steam" initAppState
          [FetchResult.err, FetchResult.ok steamData]).1).isBasic = true ∧
    (derefTree
        (buildCraftingTree "Steam" (buildCraftingTree "Steam" initAppState
            [FetchResult.err, FetchResult.ok steamData]).2.1
          (buildCraftingTree "Steam" initAppState
            [FetchResult.err, FetchResult.ok steamData]).2.2).2.1
        (buildCraftingTree "Steam" (buildCraftingTree "Steam" initAppState
            [FetchResult.err, FetchResult.ok steamData]).2.1
          (buildCraftingTree "Steam" initAppState
            [FetchResult.err, FetchResult.ok steamData]).2.2).1).isBasic = false := by
  constructor
  · decide
  · decide

/-! ## The candidate-selection policy (claim C3) -/

/-- Whether `buildTree` resolves ingredient `i` (returns non-null) at
child gas `g` under branch-visited set `v`.  The id counter does not
influence this (see `buildTreeGo_isSome_ctr`). -/
def resolvesB (st : DagState) (g : Nat) (v : List String) (i : String) : Bool :=
  ((buildTreeGo st g i v 0).1).isSome

/-- The number of non-null child trees a candidate ingredient set
resolves. -/
def resolvedCount (st : DagState) (g : Nat) (v : List String) (s : List String) : Nat :=
  (s.filter (resolvesB st g v)).length

/-- The negation of the loop's skip-break condition
(`ingredientSets.length > 5 && indexOf >= 3`). -/
def keepGoingB (all : List (List String)) (s : List String) : Bool :=
  !(decide (all.length > 5) && decide (idxOf all s ≥ 3))

/-- The candidates the loop may reach before the cap break. -/
def cappedSets (all : List (List String)) : List (List String) :=
  all.takeWhile (keepGoingB all)

/-- Truncate after the first candidate that resolves both ingredients
(the loop's early break). -/
def takeUntilTwo (st : DagState) (g : Nat) (v : List String) :
    List (List String) → List (List String)
  | [] => []
  | s :: rest =>
    if resolvedCount st g v s = 2 then [s] else s :: takeUntilTwo st g v rest

/-- The candidates the loop actually evaluates. -/
def triedSets (st : DagState) (g : Nat) (v : List String)
    (all : List (List String)) : List (List String) :=
  takeUntilTwo st g v (cappedSets all)

/-- The id-counter state just before a given suffix of the tried
candidates is evaluated. -/
def replayCtr (build : String → Nat → Option CraftTree × Nat) :
    List (List String) → Nat → Nat
  | [], c => c
  | s :: rest, c => replayCtr build rest (mapBuild build s c).2

theorem buildTreeGo_isSome_ctr (st : DagState) (g : Nat) (e : String)
    (v : List String) (c : Nat) :
    ((buildTreeGo st g e v c).1).isSome = resolvesB st g v e := by
  cases g with
  | zero =>
    rw [buildTreeGo_zero_isSome]
    show _ = ((buildTreeGo st 0 e v 0).1).isSome
    rw [buildTreeGo_zero_isSome]
  | succ g =>
    rw [buildTreeGo_succ_isSome]
    show _ = ((buildTreeGo st (g + 1) e v 0).1).isSome
    rw [buildTreeGo_succ_isSome]

theorem mapBuild_length (st : DagState) (g : Nat) (v : List String) :
    ∀ (s : List String) (c : Nat),
      ((mapBuild (fun i c => buildTreeGo st g i v c) s c).1).length =
        resolvedCount st g v s := by
  intro s
  induction s with
  | nil => intro c; simp [mapBuild, resolvedCount]
  | cons i rest ih =>
    intro c
    simp only [mapBuild]
    cases hb : (buildTreeGo st g i v c).1 with
    | some t =>
      have hres : resolvesB st g v i = true := by
        rw [← buildTreeGo_isSome_ctr st g i v c, hb]
        rfl
      simp only [resolvedCount, List.filter_cons, hres, if_true, List.length_cons]
      have hih := ih (buildTreeGo st g i v c).2
      simp only [resolvedCount] at hih
      rw [hih]
    | none =>
      have hres : resolvesB st g v i = false := by
        rw [← buildTreeGo_isSome_ctr st g i v c, hb]
        rfl
      simp only [resolvedCount, List.filter_cons, hres]
      simp only [resolvedCount] at ih
      exact ih (buildTreeGo st g i v c).2

theorem takeUntilTwo_stop (st : DagState) (g : Nat) (v : List String) :
    ∀ (pre : List (List String)) (s : List String) (post : List (List String)),
      (∀ s' ∈ pre, resolvedCount st g v s' ≠ 2) → resolvedCount st g v s = 2 →
      takeUntilTwo st g v (pre ++ s :: post) = pre ++ [s] := by
  intro pre
  induction pre with
  | nil =>
    intro s post _ h2
    simp only [List.nil_append, takeUntilTwo, if_pos h2]
  | cons p pre' ih =>
    intro s post hpre h2
    have hp : resolvedCount st g v p ≠ 2 := hpre p (List.mem_cons_self _ _)
    simp only [List.cons_append, takeUntilTwo, if_neg hp, List.append_eq]
    rw [ih s post (fun q hq => hpre q (List.mem_cons_of_mem _ hq)) h2]
theorem mem_takeUntilTwo_head (st : DagState) (g : Nat) (v : List String)
    (s0 : List String) (l : List (List String)) :
    s0 ∈ takeUntilTwo st g v (s0 :: l) := by
  simp only [takeUntilTwo]
  split <;> simp

theorem tryCandidates_argmax (st : DagState) (g : Nat) (v : List String)
    (all : List (List String)) :
    ∀ (rem : List (List String)) (best : List CraftTree) (c : Nat),
      best.length ≤ 1 →
      (∀ s ∈ rem, s.length = 2) →
      ((∀ s ∈ takeUntilTwo st g v (rem.takeWhile (keepGoingB all)),
          resolvedCount st g v s ≤ best.length) →
        (tryCandidates (fun i c => buildTreeGo st g i v c) all rem best c).1 = best) ∧
      (∀ pre s post,
        takeUntilTwo st g v (rem.takeWhile (keepGoingB all)) = pre ++ s :: post →
        resolvedCount st g v s > best.length →
        (∀ s' ∈ pre, resolvedCount st g v s' < resolvedCount st g v s) →
        (∀ s'' ∈ takeUntilTwo st g v (rem.takeWhile (keepGoingB all)),
          resolvedCount st g v s'' ≤ resolvedCount st g v s) →
        (tryCandidates (fun i c => buildTreeGo st g i v c) all rem best c).1 =
          (mapBuild (fun i c => buildTreeGo st g i v c) s
            (replayCtr (fun i c => buildTreeGo st g i v c) pre c)).1) := by
  intro rem
  induction rem with
  | nil =>
    intro best c hb _
    constructor
    · intro _
      rfl
    · intro pre s post hdec _ _ _
      rw [List.takeWhile_nil] at hdec
      simp only [takeUntilTwo] at hdec
      cases pre <;> simp at hdec
  | cons s0 rest ih =>
    intro best c hb hlen
    have hlen' : ∀ s ∈ rest, s.length = 2 :=
      fun s hs => hlen s (List.mem_cons_of_mem _ hs)
    have hcle2 : resolvedCount st g v s0 ≤ 2 := by
      have hfl : resolvedCount st g v s0 ≤ s0.length := List.length_filter_le _ _
      rw [hlen s0 (List.mem_cons_self _ _)] at hfl
      exact hfl
    by_cases hkg : keepGoingB all s0 = true
    · have htw : (s0 :: rest).takeWhile (keepGoingB all) =
          s0 :: rest.takeWhile (keepGoingB all) := by
        simp [List.takeWhile_cons, hkg]
      have hnot : ¬(all.length > 5 ∧ idxOf all s0 ≥ 3) := by
        rintro ⟨hA, hB⟩
        simp [keepGoingB, hA, hB] at hkg
      have hml := mapBuild_length st g v s0 c
      constructor
      · intro hle
        rw [htw] at hle
        have h2 : resolvedCount st g v s0 ≠ 2 := by
          have := hle s0 (mem_takeUntilTwo_head st g v s0 _)
          omega
        have htu : takeUntilTwo st g v (s0 :: rest.takeWhile (keepGoingB all)) =
            s0 :: takeUntilTwo st g v (rest.takeWhile (keepGoingB all)) := by
          simp [takeUntilTwo, h2]
        rw [htu] at hle
        simp only [tryCandidates]
        rw [if_neg hnot]
        have hr2 : ¬ ((mapBuild (fun i c => buildTreeGo st g i v c) s0 c).1.length = 2) := by
          rw [hml]
          exact h2
        rw [if_neg hr2]
        have himp : ¬ ((mapBuild (fun i c => buildTreeGo st g i v c) s0 c).1.length >
            best.length) := by
          rw [hml]
          have := hle s0 (List.mem_cons_self _ _)
          omega
        rw [if_neg himp]
        exact (ih best (mapBuild (fun i c => buildTreeGo st g i v c) s0 c).2 hb hlen').1
          (fun s hs => hle s (List.mem_cons_of_mem _ hs))
      · intro pre s post hdec hgt hpre hallle
        rw [htw] at hdec hallle
        by_cases h2 : resolvedCount st g v s0 = 2
        · have htu : takeUntilTwo st g v (s0 :: rest.takeWhile (keepGoingB all)) = [s0] := by
            simp [takeUntilTwo, h2]
          rw [htu] at hdec hallle
          cases pre with
          | nil =>
            simp only [List.nil_append] at hdec
            injection hdec with hs hpost
            subst hs
            simp only [tryCandidates]
            rw [if_neg hnot]
            have hr2 : (mapBuild (fun i c => buildTreeGo st g i v c) s0 c).1.length = 2 := by
              rw [hml]
              exact h2
            rw [if_pos hr2]
            have himp : (mapBuild (fun i c => buildTreeGo st g i v c) s0 c).1.length >
                best.length := by
              rw [hml, h2]
              omega
            rw [if_pos himp]
            rfl
          | cons x pre' =>
            simp only [List.cons_append] at hdec
            injection hdec with hx hrest'
            cases pre' <;> simp at hrest'
        · have htu : takeUntilTwo st g v (s0 :: rest.takeWhile (keepGoingB all)) =
              s0 :: takeUntilTwo st g v (rest.takeWhile (keepGoingB all)) := by
            simp [takeUntilTwo, h2]
          rw [htu] at hdec hallle
          simp only [tryCandidates]
          rw [if_neg hnot]
          have hr2 : ¬ ((mapBuild (fun i c => buildTreeGo st g i v c) s0 c).1.length = 2) := by
            rw [hml]
            exact h2
          rw [if_neg hr2]
          cases pre with
          | nil =>
            simp only [List.nil_append] at hdec
            injection hdec with hs hpost
            subst hs
            have himp : (mapBuild (fun i c => buildTreeGo st g i v c) s0 c).1.length >
                best.length := by
              rw [hml]
              exact hgt
            rw [if_pos himp]
            have hb1 : (mapBuild (fun i c => buildTreeGo st g i v c) s0 c).1.length ≤ 1 := by
              rw [hml]
              omega
            have hres := (ih (mapBuild (fun i c => buildTreeGo st g i v c) s0 c).1
              (mapBuild (fun i c => buildTreeGo st g i v c) s0 c).2 hb1 hlen').1
              (by
                intro s' hs'
                rw [hml]
                exact hallle s' (List.mem_cons_of_mem _ hs'))
            exact hres
          | cons x pre' =>
            simp only [List.cons_append] at hdec
            injection hdec with hx hdec'
            subst hx
            have hgt0 : resolvedCount st g v s > resolvedCount st g v s0 :=
              hpre s0 (List.mem_cons_self _ _)
            by_cases himp : (mapBuild (fun i c => buildTreeGo st g i v c) s0 c).1.length >
                best.length
            · rw [if_pos himp]
              have hb1 : (mapBuild (fun i c => buildTreeGo st g i v c) s0 c).1.length ≤ 1 := by
                rw [hml]
                omega
              have hres := (ih (mapBuild (fun i c => buildTreeGo st g i v c) s0 c).1
                (mapBuild (fun i c => buildTreeGo st g i v c) s0 c).2 hb1 hlen').2
                pre' s post hdec'
                (by rw [hml]; exact hgt0)
                (fun q hq => hpre q (List.mem_cons_of_mem _ hq))
                (fun q hq => hallle q (List.mem_cons_of_mem _ hq))
              exact hres
            · rw [if_neg himp]
              have hres := (ih best
                (mapBuild (fun i c => buildTreeGo st g i v c) s0 c).2 hb hlen').2
                pre' s post hdec' hgt
                (fun q hq => hpre q (List.mem_cons_of_mem _ hq))
                (fun q hq => hallle q (List.mem_cons_of_mem _ hq))
              exact hres
    · have hkgf : keepGoingB all s0 = false := by
        cases hkk : keepGoingB all s0
        · rfl
        · exact absurd hkk hkg
      have hcond : all.length > 5 ∧ idxOf all s0 ≥ 3 := by
        by_contra hn
        have : keepGoingB all s0 = true := by
          rcases not_and_or.mp hn with hA | hB
          · simp [keepGoingB, hA]
          · simp [keepGoingB, hB]
        exact hkg this
      have htw : (s0 :: rest).takeWhile (keepGoingB all) = [] := by
        simp [List.takeWhile_cons, hkgf]
      constructor
      · intro _
        simp only [tryCandidates]
        rw [if_pos hcond]
      · intro pre s post hdec _ _ _
        rw [htw] at hdec
        simp only [takeUntilTwo] at hdec
        cases pre <;> simp at hdec
/-- C3: In the candidate loop over an element's ingredient sets,
`buildTree` keeps the children of the earliest candidate resolving the
most non-null child trees: (a) when every tried candidate resolves
zero children the best list stays empty; (b) the loop's result equals
the child list of the earliest candidate attaining the maximum
resolved count (a later candidate replaces the best only when it
resolves strictly more); (c) iteration stops as soon as a candidate
resolves both of its two ingredients, skipping all later candidates;
and (d) the recipe branch of `buildTree` returns exactly the node
carrying that winning child list (or a degraded basic leaf when it is
empty). -/
theorem tryCandidates_selection (st : DagState) (g : Nat) (e : String)
    (v : List String) (c : Nat) (n : DagNode) (sets : List (List String))
    (hnv : e ∉ v)
    (hnode : omapGet st.nodeMap e = some n)
    (hnb : ¬(BASIC_ELEMENTS.contains n.properties.name = true ∨
      n.properties.depth = some 0))
    (hsets : omapGet st.recipeIngredients e = some sets)
    (hne : sets ≠ [])
    (hpairs : ∀ s ∈ sets, s.length = 2) :
    ((∀ s ∈ triedSets st g (e :: v) sets, resolvedCount st g (e :: v) s = 0) →
      (tryCandidates (fun i c => buildTreeGo st g i (e :: v) c) sets sets [] c).1
        = []) ∧
    (∀ pre s post,
      triedSets st g (e :: v) sets = pre ++ s :: post →
      0 < resolvedCount st g (e :: v) s →
      (∀ s' ∈ pre, resolvedCount st g (e :: v) s' < resolvedCount st g (e :: v) s) →
      (∀ s'' ∈ triedSets st g (e :: v) sets,
        resolvedCount st g (e :: v) s'' ≤ resolvedCount st g (e :: v) s) →
      (tryCandidates (fun i c => buildTreeGo st g i (e :: v) c) sets sets [] c).1 =
        (mapBuild (fun i c => buildTreeGo st g i (e :: v) c) s
          (replayCtr (fun i c => buildTreeGo st g i (e :: v) c) pre c)).1) ∧
    (∀ pre s post,
      cappedSets sets = pre ++ s :: post →
      (∀ s' ∈ pre, resolvedCount st g (e :: v) s' ≠ 2) →
      resolvedCount st g (e :: v) s = 2 →
      triedSets st g (e :: v) sets = pre ++ [s] ∧
      (tryCandidates (fun i c => buildTreeGo st g i (e :: v) c) sets sets [] c).1 =
        (mapBuild (fun i c => buildTreeGo st g i (e :: v) c) s
          (replayCtr (fun i c => buildTreeGo st g i (e :: v) c) pre c)).1) ∧
    (buildTreeGo st (g + 1) e v c =
      (if 0 < ((tryCandidates (fun i c => buildTreeGo st g i (e :: v) c)
          sets sets [] c).1).length then
        (some (CraftTree.node
          (generateUniqueId n.properties.name
            (tryCandidates (fun i c => buildTreeGo st g i (e :: v) c)
              sets sets [] c).2).1
          n.properties.name false (some e)
          (some (tryCandidates (fun i c => buildTreeGo st g i (e :: v) c)
            sets sets [] c).1) false),
          (generateUniqueId n.properties.name
            (tryCandidates (fun i c => buildTreeGo st g i (e :: v) c)
              sets sets [] c).2).2)
       else
        (some (CraftTree.node
          (generateUniqueId n.properties.name
            (tryCandidates (fun i c => buildTreeGo st g i (e :: v) c)
              sets sets [] c).2).1
          n.properties.name true (some e) none false),
          (generateUniqueId n.properties.name
            (tryCandidates (fun i c => buildTreeGo st g i (e :: v) c)
              sets sets [] c).2).2))) := by
  have hcore := tryCandidates_argmax st g (e :: v) sets sets [] c (by simp) hpairs
  have hle2 : ∀ q ∈ sets, resolvedCount st g (e :: v) q ≤ 2 := by
    intro q hq
    have hfl : resolvedCount st g (e :: v) q ≤ q.length := List.length_filter_le _ _
    rw [hpairs q hq] at hfl
    exact hfl
  have hcapmem : ∀ q ∈ cappedSets sets, q ∈ sets := by
    intro q hq
    exact (List.takeWhile_sublist _).subset hq
  refine ⟨?_, ?_, ?_, ?_⟩
  · intro hz
    apply hcore.1
    intro s hs
    have hs' : s ∈ triedSets st g (e :: v) sets := by
      simpa [triedSets, cappedSets] using hs
    rw [hz s hs']
    simp
  · intro pre s post hdec h0 hpre hall
    exact hcore.2 pre s post
      (by simpa [triedSets, cappedSets] using hdec)
      (by simpa using h0)
      hpre
      (fun q hq => hall q (by simpa [triedSets, cappedSets] using hq))
  · intro pre s post hcap hpre h2
    have hsmem : s ∈ sets := by
      apply hcapmem
      rw [hcap]
      exact List.mem_append_right _ (List.mem_cons_self _ _)
    have hpremem : ∀ q ∈ pre, q ∈ sets := by
      intro q hq
      apply hcapmem
      rw [hcap]
      exact List.mem_append_left _ hq
    have htried : triedSets st g (e :: v) sets = pre ++ [s] := by
      simp only [triedSets, hcap]
      exact takeUntilTwo_stop st g (e :: v) pre s post hpre h2
    refine ⟨htried, ?_⟩
    apply hcore.2 pre s []
    · simpa [triedSets, cappedSets] using htried
    · simp [h2]
    · intro q hq
      have := hle2 q (hpremem q hq)
      have hne2 := hpre q hq
      omega
    · intro q hq
      have hq' : q ∈ pre ++ [s] := by
        have := htried
        simp only [triedSets, cappedSets] at this
        rw [← this]
        exact hq
      rcases List.mem_append.mp hq' with hql | hqr
      · have := hle2 q (hpremem q hql)
        omega
      · have hqs : q = s := by simpa using hqr
        subst hqs
        omega
  · have hhas : omapHas st.recipeIngredients e = true := by
      rw [omapHas_eq_isSome, hsets]
      rfl
    simp only [buildTreeGo]
    rw [if_neg hnv]
    rw [hnode]
    simp only []
    rw [if_neg (by
      rintro (hb | hh)
      · exact hnb (by simpa using hb)
      · exact hh hhas)]
    rw [hsets]
    simp only [Option.getD]
    rw [if_pos (by
      have := List.length_pos.mpr hne
      omega)]
/-- A three-recipe element `R`: the first candidate `[Q, B]` resolves
one child (`Q` has no node), the second `[F, W]` resolves both, and
the third `[F, B]` is never evaluated because the loop stops at the
second.  `Z` has the single fully-unresolvable candidate `[Q, Q2]`. -/
def selData : DagData :=
  ⟨[mkNode "R" "R" 2, mkNode "B" "B" 0, mkNode "F" "F" 0, mkNode "W" "W" 0,
    mkNode "Z" "Z" 2],
   [mkRel "PART_OF" "Q" "P1", mkRel "PART_OF" "B" "P1", mkRel "RESULTS_IN" "P1" "R",
    mkRel "PART_OF" "F" "P2", mkRel "PART_OF" "W" "P2", mkRel "RESULTS_IN" "P2" "R",
    mkRel "PART_OF" "F" "P3", mkRel "PART_OF" "B" "P3", mkRel "RESULTS_IN" "P3" "R",
    mkRel "PART_OF" "Q" "P4", mkRel "PART_OF" "Q2" "P4", mkRel "RESULTS_IN" "P4" "Z"]⟩

def selState : DagState := processDAGData selData

set_option maxRecDepth 4000 in
theorem tryCandidates_selection_witness :
    triedSets selState 6 ["R"] [["Q","B"],["F","W"],["F","B"]]
        = [["Q","B"], ["F","W"]] ∧
    (tryCandidates (fun i c => buildTreeGo selState 6 i ["R"] c)
        [["Q","B"],["F","W"],["F","B"]] [["Q","B"],["F","W"],["F","B"]] [] 0).1 =
      (mapBuild (fun i c => buildTreeGo selState 6 i ["R"] c) ["F","W"]
        (replayCtr (fun i c => buildTreeGo selState 6 i ["R"] c) [["Q","B"]] 0)).1 ∧
    (tryCandidates (fun i c => buildTreeGo selState 6 i ["Z"] c)
        [["Q","Q2"]] [["Q","Q2"]] [] 0).1 = [] ∧
    buildTreeGo selState (6 + 1) "R" [] 0 =
      (some (CraftTree.node "r-4" "R" false (some "R")
        (some [CraftTree.node "f-2" "F" true (some "F") none false,
               CraftTree.node "w-3" "W" true (some "W") none false]) false), 4) := by
  have h := tryCandidates_selection selState 6 "R" [] 0 (mkNode "R" "R" 2)
    [["Q","B"],["F","W"],["F","B"]]
    (by decide) (by decide) (by decide) (by decide) (by decide) (by decide)
  have hz := tryCandidates_selection selState 6 "Z" [] 0 (mkNode "Z" "Z" 2)
    [["Q","Q2"]]
    (by decide) (by decide) (by decide) (by decide) (by decide) (by decide)
  refine ⟨(h.2.2.1 [["Q","B"]] ["F","W"] [["F","B"]]
      (by decide) (by decide) (by decide)).1,
    h.2.1 [["Q","B"]] ["F","W"] []
      (by decide) (by decide) (by decide) (by decide),
    hz.1 (by decide), ?_⟩
  rw [h.2.2.2]
  rfl
